import Mathlib

/-!
Verification of the form-OCR extraction pipeline: a shallow embedding of the
classifier, response parser, normalizers, validators and confidence scorer of
the `formAwareOCR.ts` / `enhancedFormDetection.ts` / `gemini.ts` services,
together with proofs and refutations of the specified properties.

JavaScript dynamic values are modelled by the inductive type `JVal`
(JS numbers by `JNum`, with `nan` explicit and finite doubles as rationals);
JavaScript coercion builtins (`Number`, `String(...)`, truthiness, `||`,
optional chaining, `JSON.parse`, `JSON.stringify`) are modelled explicitly.
A TypeError thrown by the source (e.g. calling `.trim()` on a non-string)
is modelled by `Option`/`none`.

Rational arithmetic is performed through `Rat.divInt`-based helpers
(`qadd`, `qmul`, `qdiv`, `qfloor`) because the standard `Rat` operations are
`@[irreducible]`; bridge lemmas identify them with `+`, `*`, `/`, `⌊·⌋`.
-/

/-! ## Reducible rational arithmetic -/

/-- Addition on `ℚ` via `Rat.divInt` (kernel-reducible). -/
def qadd (a b : ℚ) : ℚ := Rat.divInt (a.num * b.den + b.num * a.den) (a.den * b.den)

/-- Multiplication on `ℚ` via `Rat.divInt` (kernel-reducible). -/
def qmul (a b : ℚ) : ℚ := Rat.divInt (a.num * b.num) (a.den * b.den)

/-- Division on `ℚ` via `Rat.divInt` (kernel-reducible). -/
def qdiv (a b : ℚ) : ℚ := qmul a (Rat.divInt b.den b.num)

/-- Floor of a rational as an integer (kernel-reducible). -/
def qfloor (q : ℚ) : ℤ := q.num / q.den

/-- JavaScript `Math.round`: round half up, i.e. `⌊q + 1/2⌋`, as a rational. -/
def jround (q : ℚ) : ℚ := ((qfloor (qadd q (Rat.divInt 1 2)) : ℤ) : ℚ)

/-- Sum of a list of rationals via `qadd` (kernel-reducible). -/
def qsum (l : List ℚ) : ℚ := l.foldr qadd 0

/-! ## Decimal digits and characters -/

/-- Character for a decimal digit `d < 10`. -/
def digitCh (d : ℕ) : Char := Char.ofNat (48 + d)

/-- Decide whether a character is a decimal digit. -/
def isDigitCh (c : Char) : Bool := 48 ≤ c.toNat && c.toNat ≤ 57

/-- Decimal digit characters of `n`, most significant first, by fueled division
(`[]` for `n = 0`). -/
def natCharsAux : ℕ → ℕ → List Char
  | 0, _ => []
  | fuel + 1, n => if n = 0 then [] else natCharsAux fuel (n / 10) ++ [digitCh (n % 10)]

/-- Decimal representation of a natural number, as characters. -/
def natChars (n : ℕ) : List Char := if n = 0 then ['0'] else natCharsAux (n + 1) n

/-- Decimal representation of an integer, as characters. -/
def intChars (z : ℤ) : List Char :=
  if z < 0 then '-' :: natChars z.natAbs else natChars z.natAbs

/-- Numeric value of a list of digit characters read left to right. -/
def digitsVal (ds : List Char) : ℕ := ds.foldl (fun a c => 10 * a + (c.toNat - 48)) 0

/-- Split off the maximal leading run of decimal digit characters. -/
def spanDigits : List Char → List Char × List Char
  | [] => ([], [])
  | c :: cs =>
    if isDigitCh c then
      let (ds, r) := spanDigits cs
      (c :: ds, r)
    else ([], c :: cs)

/-! ## JavaScript-style string helpers

The Lean core `String.toLower`/`toUpper`/`trim` are not kernel-reducible, so
the embedding works on the underlying character lists. -/

/-- Lowercase a string character-wise (models JS `toLowerCase` on ASCII). -/
def lowerStr (s : String) : String := String.mk (s.data.map Char.toLower)

/-- Uppercase a string character-wise (models JS `toUpperCase` on ASCII). -/
def upperStr (s : String) : String := String.mk (s.data.map Char.toUpper)

/-- Trim leading and trailing whitespace (models JS `String.prototype.trim`). -/
def trimStr (s : String) : String :=
  String.mk (((s.data.dropWhile Char.isWhitespace).reverse.dropWhile Char.isWhitespace).reverse)

/-- Substring containment (models JS `String.prototype.includes`). -/
def strIncludes (hay needle : String) : Bool :=
  hay.data.tails.any (fun t => needle.data.isPrefixOf t)

/-! ## JavaScript values -/

/-- A JavaScript number: `NaN` or a finite value (finite doubles are modelled
exactly as rationals; the pipeline never produces infinities). -/
inductive JNum where
  | nan
  | fin (q : ℚ)
deriving Repr

/-- A JavaScript runtime value as seen by the extraction pipeline:
`undefined`, `null`, booleans, numbers, strings, arrays and plain objects
(ordered field lists). -/
inductive JVal where
  | undef
  | null
  | bool (b : Bool)
  | num (n : JNum)
  | str (s : String)
  | arr (elems : List JVal)
  | obj (fields : List (String × JVal))
deriving Repr

/-- Look a key up in an object field list (first match). -/
def lookupField : List (String × JVal) → String → JVal
  | [], _ => .undef
  | (k, v) :: rest, key => if k = key then v else lookupField rest key

/-- JavaScript property access `v[key]`: fields for objects, `length` for
strings and arrays, `undefined` otherwise. -/
def jsGet : JVal → String → JVal
  | .obj fields, key => lookupField fields key
  | .str s, key => if key = "length" then .num (.fin s.length) else .undef
  | .arr xs, key => if key = "length" then .num (.fin xs.length) else .undef
  | _, _ => (.undef)

/-- JavaScript optional chaining `v?.[key]`: `undefined` when `v` is
`null`/`undefined`, plain access otherwise. -/
def jsOptGet (v : JVal) (key : String) : JVal :=
  match v with
  | .undef => .undef
  | .null => .undef
  | v => jsGet v key

/-- JavaScript truthiness: everything is truthy except `undefined`, `null`,
`false`, `0`, `NaN` and the empty string. -/
def jsTruthy : JVal → Bool
  | .undef => false
  | .null => false
  | .bool b => b
  | .num .nan => false
  | .num (.fin q) => !(q = 0 : Bool)
  | .str s => !(s = "" : Bool)
  | .arr _ => true
  | .obj _ => true

/-- JavaScript `a || b`: `a` when truthy, else `b`. -/
def jsOrElse (a b : JVal) : JVal := if jsTruthy a then a else b

/-- ToNumber on a trimmed string body: optional sign, then either
`digits`, `digits.digits`, `digits.` or `.digits` (the decimal-literal
fragment of ECMAScript `StringNumericLiteral`; exponents and non-decimal
radixes do not occur in this pipeline's data and are not modelled). -/
def strNumBody (t : List Char) : JNum :=
  let (neg, t1) : Bool × List Char :=
    match t with
    | '-' :: r => (true, r)
    | '+' :: r => (false, r)
    | _ => (false, t)
  let (ip, t2) := spanDigits t1
  match t2 with
  | [] =>
    if ip = [] then .nan
    else .fin (Rat.divInt (if neg then -(digitsVal ip : ℤ) else (digitsVal ip : ℤ)) 1)
  | '.' :: t3 =>
    let (fp, t4) := spanDigits t3
    if t4 = [] && !(ip = [] && fp = []) then
      let m : ℤ := digitsVal ip * 10 ^ fp.length + digitsVal fp
      .fin (Rat.divInt (if neg then -m else m) (10 ^ fp.length))
    else .nan
  | _ => .nan

/-- JavaScript `Number(string)`: whitespace-trimmed decimal parse, empty
string gives `0`, anything unparseable gives `NaN`. -/
def jsStrToNumber (s : String) : JNum :=
  let t := (trimStr s).data
  if t = [] then .fin 0 else strNumBody t

/-! ## Printing rationals as JavaScript prints numbers -/

/-- Smallest exponent `k ≤ 40` with `q.den ∣ 10^k`, i.e. `q` has an exact
decimal expansion with `k` fraction digits (every finite double that the
pipeline handles does). -/
def denPow (q : ℚ) : Option ℕ := (List.range 41).find? (fun k => 10 ^ k % q.den = 0)

/-- Decimal digit characters of the fraction part: `fp` printed left-padded
with zeros to exactly `k` digits. -/
def fracChars (k fp : ℕ) : List Char :=
  List.replicate (k - (natCharsAux (fp + 1) fp).length) '0' ++ natCharsAux (fp + 1) fp

/-- Print a rational exactly as JavaScript prints the corresponding double:
integer values without a point, other values as a (shortest) decimal
expansion. Values without a finite decimal expansion cannot arise from
doubles; they fall back to printing the integer part. -/
def printQ (q : ℚ) : List Char :=
  match denPow q with
  | some 0 => intChars q.num
  | some (k + 1) =>
    let sign : List Char := if q.num < 0 then ['-'] else []
    let scaled : ℕ := q.num.natAbs * (10 ^ (k + 1) / q.den)
    sign ++ natChars (scaled / 10 ^ (k + 1)) ++ '.' :: fracChars (k + 1) (scaled % 10 ^ (k + 1))
  | none => intChars q.num

/-- Print a JavaScript number (`String(n)` / template-literal interpolation). -/
def jnumToString : JNum → String
  | .nan => "NaN"
  | .fin q => String.mk (printQ q)

/-! ## JavaScript ToString / ToNumber on arbitrary values -/

mutual

/-- JavaScript `String(v)` string coercion; arrays join their elements'
coercions with commas (`null`/`undefined` elements become empty), plain
objects print as `[object Object]`. -/
def jsToStr : JVal → String
  | .undef => "undefined"
  | .null => "null"
  | .bool b => if b then "true" else "false"
  | .num n => jnumToString n
  | .str s => s
  | .arr xs => arrJoin xs
  | .obj _ => "[object Object]"

/-- Comma-join of array elements for `Array.prototype.toString`. -/
def arrJoin : List JVal → String
  | [] => ""
  | [x] => elemStr x
  | x :: y :: xs => elemStr x ++ "," ++ arrJoin (y :: xs)

/-- Element rendering inside an array join: `null` and `undefined` render
as the empty string. -/
def elemStr : JVal → String
  | .undef => ""
  | .null => ""
  | v => jsToStr v

end

/-- JavaScript `Number(v)` numeric coercion (global `Number` / unary plus):
`undefined ↦ NaN`, `null ↦ 0`, booleans to `0/1`, strings by decimal parse,
arrays via their ToString, objects to `NaN` (their primitive form is
`[object Object]`). -/
def jsToNumber : JVal → JNum
  | .undef => .nan
  | .null => .fin 0
  | .bool b => .fin (if b then 1 else 0)
  | .num n => n
  | .str s => jsStrToNumber s
  | .arr xs => jsStrToNumber (arrJoin xs)
  | .obj _ => .nan

/-- The pattern `Number(v) || 0`: the coercion with `NaN` (and `-0`)
replaced by `0`; always a finite rational. -/
def jsNumOr0 (v : JVal) : ℚ :=
  match jsToNumber v with
  | .nan => 0
  | .fin q => q

/-- Is the coerced value `NaN` (JS global `isNaN`)? -/
def jsIsNaN (v : JVal) : Bool :=
  match jsToNumber v with
  | .nan => true
  | .fin _ => false

/-- Decide whether a JavaScript number is `NaN`. -/
def isNaNn : JNum → Bool
  | .nan => true
  | .fin _ => false

/-- JavaScript `>` on two numbers (`false` whenever either is `NaN`). -/
def jnumGT : JNum → JNum → Bool
  | .fin a, .fin b => decide (b < a)
  | _, _ => false

/-- JavaScript `<` against a rational constant (`false` for `NaN`). -/
def jnumLTc (n : JNum) (c : ℚ) : Bool :=
  match n with
  | .nan => false
  | .fin a => decide (a < c)

/-- JavaScript relational `v >= c` against a numeric constant: coerce and
compare, `false` for `NaN`. -/
def jsGEc (v : JVal) (c : ℚ) : Bool :=
  match jsToNumber v with
  | .nan => false
  | .fin a => decide (c ≤ a)

/-- JavaScript relational `v > c` against a numeric constant. -/
def jsGTc (v : JVal) (c : ℚ) : Bool :=
  match jsToNumber v with
  | .nan => false
  | .fin a => decide (c < a)

/-- JavaScript `parseFloat(v)`: coerce to string, trim leading whitespace,
then parse the longest numeric prefix (sign, digits, optional fraction);
`NaN` when no digits start the remainder. -/
def jsParseFloat (v : JVal) : JNum :=
  let t := (jsToStr v).data.dropWhile Char.isWhitespace
  let (neg, t1) : Bool × List Char :=
    match t with
    | '-' :: r => (true, r)
    | '+' :: r => (false, r)
    | _ => (false, t)
  let (ip, t2) := spanDigits t1
  if ip = [] then .nan
  else
    match t2 with
    | '.' :: t3 =>
      let (fp, _) := spanDigits t3
      let m : ℤ := digitsVal ip * 10 ^ fp.length + digitsVal fp
      .fin (Rat.divInt (if neg then -m else m) (10 ^ fp.length))
    | _ => .fin (Rat.divInt (if neg then -(digitsVal ip : ℤ) else (digitsVal ip : ℤ)) 1)

/-! ## JSON serialization (JSON.stringify) -/

/-- Hex digit character (lowercase), for `\u00XX` escapes. -/
def hexCh (d : ℕ) : Char := if d < 10 then digitCh d else Char.ofNat (87 + d)

/-- JSON string escaping of one character, as `JSON.stringify` performs it:
quote, backslash and the named control escapes get two-character escapes,
other control characters get `\u00XX`, everything else is copied verbatim. -/
def escapeCh (c : Char) : List Char :=
  if c = '"' then ['\\', '"']
  else if c = '\\' then ['\\', '\\']
  else if c = '\n' then ['\\', 'n']
  else if c = '\r' then ['\\', 'r']
  else if c = '\t' then ['\\', 't']
  else if c = '\x08' then ['\\', 'b']
  else if c = '\x0c' then ['\\', 'f']
  else if c.toNat < 32 then ['\\', 'u', '0', '0', hexCh (c.toNat / 16), hexCh (c.toNat % 16)]
  else [c]

/-- Characters of the JSON quoted-string form of `s`. -/
def quoteChars (s : String) : List Char :=
  '"' :: (s.data.map escapeCh).flatten ++ ['"']

mutual

/-- Characters of `JSON.stringify(v)` (compact form, no added whitespace).
`undefined` values are dropped from objects and become `null` in arrays,
as `JSON.stringify` does. -/
def printChars : JVal → List Char
  | .undef => "undefined".data
  | .null => "null".data
  | .bool b => if b then "true".data else "false".data
  | .num .nan => "null".data
  | .num (.fin q) => printQ q
  | .str s => quoteChars s
  | .arr xs => '[' :: printElems xs
  | .obj fs => '{' :: printFields fs

/-- Array elements, comma-separated, with the closing bracket. -/
def printElems : List JVal → List Char
  | [] => [']']
  | [x] => printChars x ++ [']']
  | x :: y :: xs => printChars x ++ ',' :: printElems (y :: xs)

/-- Object fields as `"key":value`, comma-separated, with the closing brace. -/
def printFields : List (String × JVal) → List Char
  | [] => ['}']
  | [(k, v)] => quoteChars k ++ ':' :: printChars v ++ ['}']
  | (k, v) :: f :: fs => quoteChars k ++ ':' :: printChars v ++ ',' :: printFields (f :: fs)

end

/-- String form of `JSON.stringify(v)`. -/
def jsonStringify (v : JVal) : String := String.mk (printChars v)

/-! ## JSON parsing (JSON.parse) -/

/-- JSON insignificant whitespace. -/
def isWsJson (c : Char) : Bool := c = ' ' || c = '\n' || c = '\t' || c = '\r'

/-- Parse a hex digit character. -/
def hexVal (c : Char) : Option ℕ :=
  if 48 ≤ c.toNat && c.toNat ≤ 57 then some (c.toNat - 48)
  else if 97 ≤ c.toNat && c.toNat ≤ 102 then some (c.toNat - 87)
  else if 65 ≤ c.toNat && c.toNat ≤ 70 then some (c.toNat - 55)
  else none

/-- Decode one escape character; `none` for an invalid escape. -/
def escDecode (e : Char) : Option Char :=
  if e = '"' then some '"'
  else if e = '\\' then some '\\'
  else if e = '/' then some '/'
  else if e = 'n' then some '\n'
  else if e = 'r' then some '\r'
  else if e = 't' then some '\t'
  else if e = 'b' then some '\x08'
  else if e = 'f' then some '\x0c'
  else none

/-- Fueled body of the JSON string parser (each step decodes one character,
so any fuel above the decoded length suffices). -/
def parseStrF : ℕ → List Char → Option (List Char × List Char)
  | 0, _ => none
  | fuel + 1, cs =>
    match cs with
    | [] => none
    | c :: rest =>
      if c = '"' then some ([], rest)
      else if c = '\\' then
        match rest with
        | [] => none
        | e :: r =>
          if e = 'u' then
            match r with
            | h1 :: h2 :: h3 :: h4 :: r2 =>
              match hexVal h1, hexVal h2, hexVal h3, hexVal h4 with
              | some d1, some d2, some d3, some d4 =>
                (parseStrF fuel r2).map
                  (fun p => (Char.ofNat (((d1 * 16 + d2) * 16 + d3) * 16 + d4) :: p.1, p.2))
              | _, _, _, _ => none
            | _ => none
          else
            match escDecode e with
            | some dec => (parseStrF fuel r).map (fun p => (dec :: p.1, p.2))
            | none => none
      else if c.toNat < 32 then none
      else (parseStrF fuel rest).map (fun p => (c :: p.1, p.2))

/-- Parse the body of a JSON string after the opening quote, returning the
decoded characters and the remainder after the closing quote. Raw control
characters are rejected, escapes are decoded. The fuel `length + 1` is
ample: every step consumes at least one input character. -/
def parseStrChars (cs : List Char) : Option (List Char × List Char) :=
  parseStrF (cs.length + 1) cs

/-- Parse the digits of a JSON number after the optional sign: an integer
part and an optional decimal fraction. -/
def parseNumBody (neg : Bool) (cs : List Char) : Option (ℚ × List Char) :=
  let ipr := spanDigits cs
  if ipr.1 = [] then none
  else
    match ipr.2 with
    | [] => some (Rat.divInt (if neg then -(digitsVal ipr.1 : ℤ) else (digitsVal ipr.1 : ℤ)) 1, [])
    | c :: cs3 =>
      if c = '.' then
        let fpr := spanDigits cs3
        if fpr.1 = [] then none
        else
          let m : ℤ := digitsVal ipr.1 * 10 ^ fpr.1.length + digitsVal fpr.1
          some (Rat.divInt (if neg then -m else m) (10 ^ fpr.1.length), fpr.2)
      else
        some (Rat.divInt (if neg then -(digitsVal ipr.1 : ℤ) else (digitsVal ipr.1 : ℤ)) 1,
          c :: cs3)

/-- Parse a JSON number (integer or decimal fraction; the printed forms of
this development). -/
def parseNum (cs : List Char) : Option (ℚ × List Char) :=
  match cs with
  | [] => parseNumBody false []
  | c :: r => if c = '-' then parseNumBody true r else parseNumBody false (c :: r)

/-- Assign a field during object construction: overwrite the value in place
when the key already exists (as JS property assignment does), otherwise
append. -/
def insertField (fs : List (String × JVal)) (k : String) (v : JVal) : List (String × JVal) :=
  if fs.any (fun p => p.1 = k) then fs.map (fun p => if p.1 = k then (k, v) else p)
  else fs ++ [(k, v)]

mutual

/-- Fueled JSON value parser: leading whitespace, then a literal, number,
string, array or object. Returns the value and the unconsumed remainder. -/
def parseVal : ℕ → List Char → Option (JVal × List Char)
  | 0, _ => none
  | fuel + 1, cs =>
    match cs.dropWhile isWsJson with
    | [] => none
    | c :: rest =>
      if c = 'n' then
        if rest.take 3 = ['u', 'l', 'l'] then some (.null, rest.drop 3) else none
      else if c = 't' then
        if rest.take 3 = ['r', 'u', 'e'] then some (.bool true, rest.drop 3) else none
      else if c = 'f' then
        if rest.take 4 = ['a', 'l', 's', 'e'] then some (.bool false, rest.drop 4) else none
      else if c = '"' then
        (parseStrChars rest).map (fun p => (.str (String.mk p.1), p.2))
      else if c = '[' then
        match rest.dropWhile isWsJson with
        | [] => none
        | d :: r =>
          if d = ']' then some (.arr [], r)
          else (parseElems fuel (d :: r)).map (fun p => (.arr p.1, p.2))
      else if c = '{' then
        match rest.dropWhile isWsJson with
        | [] => none
        | d :: r =>
          if d = '}' then some (.obj [], r)
          else (parseFields fuel [] (d :: r)).map (fun p => (.obj p.1, p.2))
      else if c = '-' || isDigitCh c then
        (parseNum (c :: rest)).map (fun p => (.num (.fin p.1), p.2))
      else none

/-- Fueled parser for the elements of a non-empty array, consuming the
closing bracket. -/
def parseElems : ℕ → List Char → Option (List JVal × List Char)
  | 0, _ => none
  | fuel + 1, cs => do
    let (v, r) ← parseVal fuel cs
    match r.dropWhile isWsJson with
    | [] => none
    | d :: r2 =>
      if d = ',' then (parseElems fuel r2).map (fun p => (v :: p.1, p.2))
      else if d = ']' then some ([v], r2)
      else none

/-- Fueled parser for the fields of a non-empty object, consuming the
closing brace; fields accumulate by JS-style assignment. -/
def parseFields : ℕ → List (String × JVal) → List Char → Option (List (String × JVal) × List Char)
  | 0, _, _ => none
  | fuel + 1, acc, cs =>
    match cs with
    | [] => none
    | c :: rest =>
      if c = '"' then do
        let (kcs, r) ← parseStrChars rest
        match r.dropWhile isWsJson with
        | [] => none
        | d :: r2 =>
          if d = ':' then do
            let (v, r3) ← parseVal fuel r2
            let acc' := insertField acc (String.mk kcs) v
            match r3.dropWhile isWsJson with
            | [] => none
            | e :: r4 =>
              if e = ',' then parseFields fuel acc' (r4.dropWhile isWsJson)
              else if e = '}' then some (acc', r4)
              else none
          else none
      else none

end

/-- JavaScript `JSON.parse` on a whole string: parse one value and require
only whitespace after it; `none` models a thrown `SyntaxError`. -/
def jsonParse (s : String) : Option JVal :=
  match parseVal (s.data.length + 1) s.data with
  | some (v, rest) => if rest.all isWsJson then some v else none
  | none => none

/-! ## JSON-safe values -/

/-- Fueled check that a value survives a `JSON.stringify`/`JSON.parse` round
trip structurally: no `undefined`, no `NaN`, numbers with finite decimal
expansions, and objects with distinct keys. `jsonSafeF 0` is conservatively
`false`, so any certificate carries enough fuel. -/
def jsonSafeF : ℕ → JVal → Bool
  | 0, _ => false
  | fuel + 1, v =>
    match v with
    | .undef => false
    | .null => true
    | .bool _ => true
    | .num .nan => false
    | .num (.fin q) => (denPow q).isSome
    | .str _ => true
    | .arr xs => xs.all (jsonSafeF fuel)
    | .obj fs =>
      fs.all (fun p => jsonSafeF fuel p.2) &&
        (fs.map Prod.fst).Nodup

/-! ## The response parser (`gemini.ts` `parseJsonResponse`) -/

/-- Suffix of `cs` starting at its first `'\x7b'`, if any (the start of the
greedy regex match `/\x7b[\s\S]*\x7d/`). -/
def dropToOpenBrace : List Char → Option (List Char)
  | [] => none
  | c :: cs => if c = '{' then some (c :: cs) else dropToOpenBrace cs

/-- Suffix of `cs` starting at its first `'\x7d'`, for use on reversed input. -/
def dropToCloseBrace : List Char → Option (List Char)
  | [] => none
  | c :: cs => if c = '}' then some (c :: cs) else dropToCloseBrace cs

/-- The greedy match of `/\x7b[\s\S]*\x7d/` on `s`: the substring from the
first opening brace to the last closing brace after it, if both exist. -/
def braceMatch (s : String) : Option String := do
  let t ← dropToOpenBrace s.data
  let u ← dropToCloseBrace t.reverse
  pure (String.mk u.reverse)

/-- The `gemini.ts` `parseJsonResponse`: try `JSON.parse` on the whole text,
on failure extract the widest brace-delimited substring and parse that;
`none` models the propagated parse error. -/
def parseJsonResponse (s : String) : Option JVal :=
  match jsonParse s with
  | some v => some v
  | none =>
    match braceMatch s with
    | some m => jsonParse m
    | none => none

/-! ## Form types and the generic extraction record -/

/-- The closed form-type enumeration of `types/receipt.ts`. -/
inductive FormType where
  | DA2062
  | DA3161
  | OCIE
  | Generic
deriving DecidableEq, Repr

/-- The generic extraction record returned by the `gemini.ts` service
(`ExtractedData`); absent optional fields are the empty string, as the
service's own normalization guarantees. -/
structure ExtractedData where
  itemName : String
  borrowerName : String
  date : String
  serialNumber : String
  category : String
  condition : String
  notes : String
deriving DecidableEq, Repr

/-! ## Shared validation helpers (`enhancedFormDetection.ts`) -/

/-- The `isValidNSN` check: the regex `^\d\x7b4\x7d-\d\x7b2\x7d-\d\x7b3\x7d-\d\x7b4\x7d$`
(4-2-3-4 digit groups separated by dashes). -/
def isValidNSN (s : String) : Bool :=
  match s.data with
  | [a, b, c, d, '-', e, f, '-', g, h, i, '-', j, k, l, m] =>
    [a, b, c, d, e, f, g, h, i, j, k, l, m].all isDigitCh
  | _ => false

/-- The partial-NSN check: the regex `^\d\x7b4\x7d$` (exactly four digits). -/
def isFourDigits (s : String) : Bool :=
  match s.data with
  | [a, b, c, d] => [a, b, c, d].all isDigitCh
  | _ => false

/-- The size-format regex `^\d+.*\d*$`: a leading digit followed by
line-break-free text (`.` does not match line terminators). -/
def sizeNumericRe (s : String) : Bool :=
  match s.data with
  | c :: rest => isDigitCh c && rest.all (fun ch => !(ch = '\n' || ch = '\r'))
  | [] => false

/-- The recognized military size vocabulary of `normalizeOCIEItem`. -/
def validSizes : List String := ["LRG", "MED", "SML", "REG", "XS", "XL", "XXL", "SM", "LG"]

/-- The quantity-mismatch diagnostic pushed by `normalizeOCIEItem`:
`OH QTY (x) > AUTH QTY (y)` with both numbers interpolated. -/
def ohIssueStr (onHand auth : JNum) : String :=
  "OH QTY (" ++ jnumToString onHand ++ ") > AUTH QTY (" ++ jnumToString auth ++ ")"

/-! ## OCIE item quantity and flag extraction (`enhancedFormDetection.ts`) -/

/-- `Number(item.quantities?.authorized || item.onHandQty || 0)`. -/
def ocieAuthorized (item : JVal) : JNum :=
  jsToNumber (jsOrElse (jsOrElse (jsOptGet (jsGet item "quantities") "authorized")
    (jsGet item "onHandQty")) (.num (.fin 0)))

/-- `Number(item.quantities?.onHand || item.onHandQty || 0)`. -/
def ocieOnHand (item : JVal) : JNum :=
  jsToNumber (jsOrElse (jsOrElse (jsOptGet (jsGet item "quantities") "onHand")
    (jsGet item "onHandQty")) (.num (.fin 0)))

/-- `Number(item.quantities?.dueOut || 0)`. -/
def ocieDueOut (item : JVal) : JNum :=
  jsToNumber (jsOrElse (jsOptGet (jsGet item "quantities") "dueOut") (.num (.fin 0)))

/-- `Boolean(item.flags?.pcsTrans || item.pcsTrans)`. -/
def ociePcsFlag (item : JVal) : Bool :=
  jsTruthy (jsOrElse (jsOptGet (jsGet item "flags") "pcsTrans") (jsGet item "pcsTrans"))

/-- `Boolean(item.flags?.etsTrans || item.etsTrans)`. -/
def ocieEtsFlag (item : JVal) : Bool :=
  jsTruthy (jsOrElse (jsOptGet (jsGet item "flags") "etsTrans") (jsGet item "etsTrans"))

/-- The diagnostics accumulated by `normalizeOCIEItem` before the size
check, in push order: NSN format, partial-NSN format, on-hand versus
authorized, negative quantities. -/
def ocieQtyIssues (item : JVal) : List String :=
  (if jsTruthy (jsOrElse (jsGet item "nsn") (.str "")) &&
      !(isValidNSN (jsToStr (jsOrElse (jsGet item "nsn") (.str "")))) then
    ["Invalid NSN format: " ++ jsToStr (jsOrElse (jsGet item "nsn") (.str ""))]
  else []) ++
  (if jsTruthy (jsOrElse (jsGet item "partialNsn") (.str "")) &&
      !(isFourDigits (jsToStr (jsOrElse (jsGet item "partialNsn") (.str "")))) then
    ["Invalid Partial NSN format: " ++ jsToStr (jsOrElse (jsGet item "partialNsn") (.str ""))]
  else []) ++
  (if jnumGT (ocieOnHand item) (ocieAuthorized item) then
    [ohIssueStr (ocieOnHand item) (ocieAuthorized item)]
  else []) ++
  (if jnumLTc (ocieOnHand item) 0 || jnumLTc (ocieAuthorized item) 0 ||
      jnumLTc (ocieDueOut item) 0 then
    ["Negative quantity detected"]
  else [])

/-- The diagnostic for an unusual size, pushed after the size coercion. -/
def ocieSizeIssues (size : String) : List String :=
  if !(size = "") && !(validSizes.any (fun vs => strIncludes size vs)) &&
      !(sizeNumericRe size) then
    ["Unusual size format: " ++ size]
  else []

/-- `item.size?.toUpperCase() || ''`: empty for `null`/`undefined`, uppercase
for strings, a thrown TypeError (`none`) for any other truthy value. -/
def sizeUpperM : JVal → Option String
  | .undef => some ""
  | .null => some ""
  | .str s => some (upperStr s)
  | _ => none

/-! ## Per-item confidence (`calculateItemConfidence`) -/

/-- The check `v && v.trim().length > 0`: `false` for falsy values, a trim
test for strings, a thrown TypeError (`none`) for other truthy values. -/
def trimNonempty (v : JVal) : Option Bool :=
  if jsTruthy v then
    match v with
    | .str s => some (decide (0 < (trimStr s).length))
    | _ => none
  else some false

/-- One bonus-field step of `calculateItemConfidence`: a non-empty trimmed
value adds `10` to the score and `0.5` to the total weight. -/
def bonusStep (item : JVal) (st : ℚ × ℚ) (f : String) : Option (ℚ × ℚ) := do
  let b ← trimNonempty (jsGet item f)
  pure (if b then (qadd st.1 10, qadd st.2 (Rat.divInt 1 2)) else st)

/-- The `calculateItemConfidence` scorer: weighted critical fields (`lin`
1.5, `nomenclature` 2, on-hand quantity 2), flat bonuses for `size`, `nsn`,
`issuingCif`, then `min(100, round(score / totalWeight))`. -/
def calculateItemConfidence (item : JVal) : Option ℚ := do
  let linScore : ℚ :=
    if jsTruthy (jsGet item "lin") && jsGEc (jsGet (jsGet item "lin") "length") 4 then 100 else 0
  let nomScore : ℚ :=
    if jsTruthy (jsGet item "nomenclature") &&
        jsGTc (jsGet (jsGet item "nomenclature") "length") 10 then 100 else 0
  let qty := jsOrElse (jsOptGet (jsGet item "quantities") "onHand") (jsGet item "onHandQty")
  let qtyScore : ℚ := if jsTruthy qty && !(jsIsNaN qty) && jsGEc qty 0 then 100 else 0
  let base : ℚ × ℚ :=
    (qadd (qadd (qmul linScore (Rat.divInt 3 2)) (qmul nomScore 2)) (qmul qtyScore 2),
      Rat.divInt 11 2)
  let st ← ["size", "nsn", "issuingCif"].foldlM (bonusStep item) base
  pure (min 100 (jround (qdiv st.1 st.2)))

/-! ## Whole-extraction confidence (`calculateOCIEConfidence`) -/

/-- The six header fields scored by `calculateOCIEConfidence`. -/
def headerFields : List String :=
  ["soldierName", "rankGrade", "ssnPid", "unit", "cifCode", "reportDate"]

/-- `data.header?.[field] || data[field]`. -/
def headerValue (data : JVal) (f : String) : JVal :=
  jsOrElse (jsOptGet (jsGet data "header") f) (jsGet data f)

/-- The presence score of one header field:
`value && value.trim().length > 0 ? 100 : 0`. -/
def presenceScore (v : JVal) : Option ℚ :=
  (trimNonempty v).map (fun b => if b then (100 : ℚ) else 0)

/-- The six header presence scores, in field order. -/
def headerScoresM (data : JVal) : Option (List ℚ) :=
  headerFields.mapM (fun f => presenceScore (headerValue data f))

/-- The items section score: the rounded mean of the per-item confidences
for a non-empty items array, `0` otherwise. -/
def itemsScoreM (data : JVal) : Option ℚ :=
  match jsGet data "items" with
  | .arr (x :: xs) => do
    let cs ← (x :: xs).mapM calculateItemConfidence
    pure (jround (qdiv (qsum cs) (cs.length : ℚ)))
  | _ => some 0

/-- The confidence record produced by `calculateOCIEConfidence`. -/
structure OCRConfidence where
  overall : ℚ
  header : ℚ
  items : ℚ
  fields : List (String × ℚ)
deriving Repr

/-- The `calculateOCIEConfidence` scorer: header score is the rounded mean
of the six presence scores, items score the rounded mean of per-item
confidences (0 for an absent or empty list), overall the rounded mean of
the two. -/
def calculateOCIEConfidence (data : JVal) : Option OCRConfidence := do
  let hs ← headerScoresM data
  let headerScore := jround (qdiv (qsum hs) (headerFields.length : ℚ))
  let itemsScore ← itemsScoreM data
  pure ⟨jround (qdiv (qadd headerScore itemsScore) 2), headerScore, itemsScore,
    headerFields.zip hs⟩

/-- Embed a confidence record as the JavaScript object it is in the source. -/
def confToJVal (c : OCRConfidence) : JVal :=
  .obj [("overall", .num (.fin c.overall)), ("header", .num (.fin c.header)),
    ("items", .num (.fin c.items)),
    ("fields", .obj (c.fields.map (fun p => (p.1, JVal.num (.fin p.2)))))]

/-! ## Extraction warnings (`validateOCIEData`) -/

/-- Per-item warnings inside `validateOCIEData` (`lin`, `nomenclature` and
on-hand presence), with 1-based item numbers interpolated. -/
def ocieItemWarnings (i : ℕ) (item : JVal) : List String :=
  (if !(jsTruthy (jsGet item "lin")) then
    ["Item " ++ String.mk (natChars (i + 1)) ++ ": Missing LIN"] else []) ++
  (if !(jsTruthy (jsGet item "nomenclature")) then
    ["Item " ++ String.mk (natChars (i + 1)) ++ ": Missing nomenclature"] else []) ++
  (if !(jsTruthy (jsOptGet (jsGet item "quantities") "onHand")) &&
      !(jsTruthy (jsGet item "onHandQty")) then
    ["Item " ++ String.mk (natChars (i + 1)) ++ ": Missing on-hand quantity"] else [])

/-- The `validateOCIEData` pass: header presence warnings, item warnings
(or a no-items warning), and a footer total-value format warning. -/
def validateOCIEData (data : JVal) : List String :=
  (if !(jsTruthy (jsOptGet (jsGet data "header") "soldierName")) &&
      !(jsTruthy (jsGet data "soldierName")) then ["Missing soldier name"] else []) ++
  (if !(jsTruthy (jsOptGet (jsGet data "header") "ssnPid")) &&
      !(jsTruthy (jsGet data "ssnPid")) then ["Missing SSN/PID"] else []) ++
  (if !(jsTruthy (jsOptGet (jsGet data "header") "unit")) &&
      !(jsTruthy (jsGet data "unit")) then ["Missing unit information"] else []) ++
  (match jsGet data "items" with
   | .arr (x :: xs) =>
     ((x :: xs).enum.map (fun p => ocieItemWarnings p.1 p.2)).flatten
   | _ => ["No items found"]) ++
  (if jsTruthy (jsOptGet (jsGet data "footer") "totalValue") &&
      isNaNn (jsParseFloat (jsOptGet (jsGet data "footer") "totalValue")) then
    ["Invalid total value format"] else [])

/-! ## The enhanced service (`enhancedFormDetection.ts`) -/

namespace Enhanced

/-- The `normalizeDA2062Item` normalizer: string fields default to the empty
string, each quantity is `Number(·) || 0`. -/
def normalizeDA2062Item (item : JVal) : JVal :=
  .obj [("stockNumber", jsOrElse (jsGet item "stockNumber") (.str "")),
    ("itemDescription", jsOrElse (jsGet item "itemDescription") (.str "")),
    ("model", jsOrElse (jsGet item "model") (.str "")),
    ("securityCode", jsOrElse (jsGet item "securityCode") (.str "")),
    ("unitOfIssue", jsOrElse (jsGet item "unitOfIssue") (.str "")),
    ("quantityAuth", .num (.fin (jsNumOr0 (jsGet item "quantityAuth")))),
    ("quantities", .obj
      [("A", .num (.fin (jsNumOr0 (jsOptGet (jsGet item "quantities") "A")))),
       ("B", .num (.fin (jsNumOr0 (jsOptGet (jsGet item "quantities") "B")))),
       ("C", .num (.fin (jsNumOr0 (jsOptGet (jsGet item "quantities") "C")))),
       ("D", .num (.fin (jsNumOr0 (jsOptGet (jsGet item "quantities") "D")))),
       ("E", .num (.fin (jsNumOr0 (jsOptGet (jsGet item "quantities") "E")))),
       ("F", .num (.fin (jsNumOr0 (jsOptGet (jsGet item "quantities") "F"))))])]

/-- The `getDefaultDA2062Data` fallback record. -/
def getDefaultDA2062Data : JVal :=
  .obj [("handReceiptNumber", .str ""), ("from", .str ""), ("to", .str ""),
    ("publicationDate", .str ""), ("items", .arr []), ("page", .str ""),
    ("totalPages", .str "")]

/-- The `parseDA2062Data` normalizer: a direct `JSON.parse` of the raw text,
falling back to the default record when the parse throws. -/
def parseDA2062Data (result : String) : JVal :=
  match jsonParse result with
  | none => getDefaultDA2062Data
  | some data =>
    .obj [("handReceiptNumber", jsOrElse (jsGet data "handReceiptNumber") (.str "")),
      ("from", jsOrElse (jsGet data "from") (.str "")),
      ("to", jsOrElse (jsGet data "to") (.str "")),
      ("publicationDate", jsOrElse (jsGet data "publicationDate") (.str "")),
      ("items", match jsGet data "items" with
        | .arr xs => .arr (xs.map normalizeDA2062Item)
        | _ => .arr []),
      ("page", jsOrElse (jsGet data "page") (.str "")),
      ("totalPages", jsOrElse (jsGet data "totalPages") (.str ""))]

/-- The `normalizeOCIEItem` normalizer: synthetic id from index and
timestamp, coerced quantities and flags, accumulated validation issues and
a per-item confidence; `none` models the TypeError thrown when `size` (or a
bonus field reached by the confidence scorer) is a truthy non-string. -/
def normalizeOCIEItem (item : JVal) (idx now : ℕ) : Option JVal := do
  let size ← sizeUpperM (jsGet item "size")
  let conf ← calculateItemConfidence item
  pure (.obj [("id", .str ("ocie-item-" ++ String.mk (natChars idx) ++ "-" ++
      String.mk (natChars now))),
    ("issuingCif", jsOrElse (jsGet item "issuingCif") (.str "")),
    ("lin", jsOrElse (jsGet item "lin") (.str "")),
    ("size", .str size),
    ("nomenclature", jsOrElse (jsGet item "nomenclature") (.str "")),
    ("edition", jsGet item "edition"),
    ("fig", jsGet item "fig"),
    ("withPc", jsGet item "withPc"),
    ("partialNsn", jsOrElse (jsGet item "partialNsn") (.str "")),
    ("nsn", jsOrElse (jsGet item "nsn") (.str "")),
    ("quantities", .obj [("authorized", .num (ocieAuthorized item)),
      ("onHand", .num (ocieOnHand item)), ("dueOut", .num (ocieDueOut item))]),
    ("flags", .obj [("pcsTrans", .bool (ociePcsFlag item)),
      ("etsTrans", .bool (ocieEtsFlag item))]),
    ("confidence", .num (.fin conf)),
    ("issues", .arr ((ocieQtyIssues item ++ ocieSizeIssues size).map JVal.str))])

/-- The `getDefaultOCIEData` fallback record of the enhanced service. -/
def getDefaultOCIEData : JVal :=
  .obj [("soldierName", .str ""), ("rankGrade", .str ""), ("ssnPid", .str ""),
    ("unit", .str ""), ("cifCode", .str ""), ("reportDate", .str ""),
    ("items", .arr []), ("signature", .str ""), ("statementDate", .str "")]

/-- Strip a leading code-fence tag (the first regex match of the tag
followed by whitespace) from the text. -/
def removeTagWs (tag : List Char) : List Char → List Char
  | [] => []
  | c :: rest =>
    if tag.isPrefixOf (c :: rest) then ((c :: rest).drop tag.length).dropWhile Char.isWhitespace
    else c :: removeTagWs tag rest

/-- Remove a trailing code fence: the first position where three backticks
are followed only by whitespace to the end of the text. -/
def removeEndFence : List Char → List Char
  | [] => []
  | c :: rest =>
    if ("```".data.isPrefixOf (c :: rest)) && (((c :: rest).drop 3).all Char.isWhitespace) then []
    else c :: removeEndFence rest

/-- The markdown-fence stripping at the top of `parseOCIEData`. -/
def stripFences (result : String) : String :=
  if strIncludes result "```json" then
    String.mk (removeEndFence (removeTagWs "```json".data result.data))
  else if strIncludes result "```" then
    String.mk (removeEndFence (removeTagWs "```".data result.data))
  else result

/-- The items list of `parseOCIEData`: each raw item normalized with its
index; a thrown TypeError in any item aborts the whole parse (`none`). -/
def parseOCIEItems (now : ℕ) (data : JVal) : Option (List JVal) :=
  match jsGet data "items" with
  | .arr xs => xs.enum.mapM (fun p => normalizeOCIEItem p.2 p.1 now)
  | _ => some []

/-- The `parseOCIEData` normalizer of the enhanced service: fence stripping,
`JSON.parse`, confidence scoring, warnings, and nested-over-flat header
extraction; any thrown error falls back to the default record. -/
def parseOCIEData (result : String) (now : ℕ) : JVal :=
  match jsonParse (stripFences result) with
  | none => getDefaultOCIEData
  | some data =>
    match calculateOCIEConfidence data, parseOCIEItems now data with
    | some conf, some items =>
      .obj [("soldierName", jsOrElse (jsOrElse (jsOptGet (jsGet data "header") "soldierName")
          (jsGet data "soldierName")) (.str "")),
        ("rankGrade", jsOrElse (jsOrElse (jsOptGet (jsGet data "header") "rankGrade")
          (jsGet data "rankGrade")) (.str "")),
        ("dodId", jsOrElse (jsOptGet (jsGet data "header") "dodId") (.str "")),
        ("ssnPid", jsOrElse (jsOrElse (jsOptGet (jsGet data "header") "ssnPid")
          (jsGet data "ssnPid")) (.str "")),
        ("unit", jsOrElse (jsOrElse (jsOptGet (jsGet data "header") "unit")
          (jsGet data "unit")) (.str "")),
        ("cifCode", jsOrElse (jsOrElse (jsOptGet (jsGet data "header") "cifCode")
          (jsGet data "cifCode")) (.str "")),
        ("reportDate", jsOrElse (jsOrElse (jsOptGet (jsGet data "header") "reportDate")
          (jsGet data "reportDate")) (.str "")),
        ("items", .arr items),
        ("totalValue", if jsTruthy (jsOptGet (jsGet data "footer") "totalValue") then
            .num (jsParseFloat (jsOptGet (jsGet data "footer") "totalValue"))
          else .undef),
        ("isSigned", jsOrElse (jsOptGet (jsGet data "footer") "isSigned") (.bool false)),
        ("signatureText", jsOrElse (jsOrElse (jsOptGet (jsGet data "footer") "signatureText")
          (jsGet data "signature")) (.str "")),
        ("statementDate", jsOrElse (jsOrElse (jsOptGet (jsGet data "footer") "statementDate")
          (jsGet data "statementDate")) (.str "")),
        ("ocrConfidence", confToJVal conf),
        ("extractionWarnings", .arr ((validateOCIEData data).map JVal.str))]
    | _, _ => getDefaultOCIEData

/-- The `getDefaultGenericData` fallback record. -/
def getDefaultGenericData : JVal :=
  .obj [("itemName", .str ""), ("borrowerName", .str ""), ("date", .str ""),
    ("serialNumber", .str ""), ("category", .str "Other"), ("condition", .str ""),
    ("notes", .str "")]

/-- The `parseGenericData` normalizer (string input branch): `JSON.parse`
with per-field defaults, `category` defaulting to `Other`; parse failure
falls back to the default record. -/
def parseGenericData (result : String) : JVal :=
  match jsonParse result with
  | none => getDefaultGenericData
  | some data =>
    .obj [("itemName", jsOrElse (jsGet data "itemName") (.str "")),
      ("borrowerName", jsOrElse (jsGet data "borrowerName") (.str "")),
      ("date", jsOrElse (jsGet data "date") (.str "")),
      ("serialNumber", jsOrElse (jsGet data "serialNumber") (.str "")),
      ("category", jsOrElse (jsGet data "category") (.str "Other")),
      ("condition", jsOrElse (jsGet data "condition") (.str "")),
      ("notes", jsOrElse (jsGet data "notes") (.str ""))]

/-- The response-matching half of the enhanced `detectFormType`: clean the
detection response (trim, uppercase) and match it by substring containment
against the labels and synonyms; any thrown error yields `Generic`. -/
def detectFormType (response : Except String String) : FormType :=
  match response with
  | .error _ => .Generic
  | .ok result =>
    let c := upperStr (trimStr result)
    if strIncludes c "DA2062" || strIncludes c "HAND RECEIPT" then .DA2062
    else if strIncludes c "DA3161" || strIncludes c "REQUEST FOR ISSUE" then .DA3161
    else if strIncludes c "OCIE" || strIncludes c "3645" || strIncludes c "RANK/GRADE" ||
        strIncludes c "SSN/PID" then .OCIE
    else .Generic

/-! ### The keyword-scoring classification mode (`callGeminiForFormType`) -/

/-- The DA 2062 keyword list. -/
def da2062Patterns : List String :=
  ["hand receipt", "annex number", "da form 2062", "from:", "to:", "stock number",
   "item description", "publication", "hand receipt/annex number"]

/-- The DA 3161 keyword list. -/
def da3161Patterns : List String :=
  ["request for issue", "turn-in", "dodaac", "da form 3161", "request no.",
   "voucher no.", "send to:", "request from:", "priority"]

/-- The OCIE keyword list (with its duplicated entries, which count twice). -/
def ociePatterns : List String :=
  ["rank/grade", "ssn/pid", "cif code", "lin", "nomenclature", "da form 3645",
   "organizational clothing", "individual equipment", "name:", "unit:", "issuing cif",
   "size", "partial nsn", "auth qty", "oh qty", "due out", "pcs trans", "ets trans",
   "body armor", "fragmentation", "ocie record", "central issue facility", "cif",
   "dod id", "liability", "size/measurements", "issue", "turn-in", "oh qty",
   "authorized", "item description"]

/-- The lowercased haystack: the five OCR result fields joined by spaces. -/
def classifyText (d : ExtractedData) : String :=
  lowerStr (d.itemName ++ " " ++ d.borrowerName ++ " " ++ d.serialNumber ++ " " ++
    d.condition ++ " " ++ d.notes)

/-- Number of DA 2062 keywords contained in the haystack. -/
def da2062Score (d : ExtractedData) : ℕ :=
  (da2062Patterns.filter (fun p => strIncludes (classifyText d) p)).length

/-- Number of DA 3161 keywords contained in the haystack. -/
def da3161Score (d : ExtractedData) : ℕ :=
  (da3161Patterns.filter (fun p => strIncludes (classifyText d) p)).length

/-- Number of OCIE keywords contained in the haystack. -/
def ocieScore (d : ExtractedData) : ℕ :=
  (ociePatterns.filter (fun p => strIncludes (classifyText d) p)).length

/-- The decision cascade of `callGeminiForFormType`: DA 2062 at threshold 2,
then DA 3161 at threshold 2, then OCIE at threshold 1, else `Generic`. -/
def classifyByKeywords (d : ExtractedData) : FormType :=
  if 2 ≤ da2062Score d then .DA2062
  else if 2 ≤ da3161Score d then .DA3161
  else if 1 ≤ ocieScore d then .OCIE
  else .Generic

end Enhanced

/-! ## The form-aware service (`formAwareOCR.ts`) -/

namespace FormAware

/-- The `normalizeDA2062Item` normalizer (identical to the enhanced one). -/
def normalizeDA2062Item (item : JVal) : JVal :=
  .obj [("stockNumber", jsOrElse (jsGet item "stockNumber") (.str "")),
    ("itemDescription", jsOrElse (jsGet item "itemDescription") (.str "")),
    ("model", jsOrElse (jsGet item "model") (.str "")),
    ("securityCode", jsOrElse (jsGet item "securityCode") (.str "")),
    ("unitOfIssue", jsOrElse (jsGet item "unitOfIssue") (.str "")),
    ("quantityAuth", .num (.fin (jsNumOr0 (jsGet item "quantityAuth")))),
    ("quantities", .obj
      [("A", .num (.fin (jsNumOr0 (jsOptGet (jsGet item "quantities") "A")))),
       ("B", .num (.fin (jsNumOr0 (jsOptGet (jsGet item "quantities") "B")))),
       ("C", .num (.fin (jsNumOr0 (jsOptGet (jsGet item "quantities") "C")))),
       ("D", .num (.fin (jsNumOr0 (jsOptGet (jsGet item "quantities") "D")))),
       ("E", .num (.fin (jsNumOr0 (jsOptGet (jsGet item "quantities") "E")))),
       ("F", .num (.fin (jsNumOr0 (jsOptGet (jsGet item "quantities") "F"))))])]

/-- The `getDefaultDA2062Data` fallback record. -/
def getDefaultDA2062Data : JVal :=
  .obj [("handReceiptNumber", .str ""), ("from", .str ""), ("to", .str ""),
    ("publicationDate", .str ""), ("items", .arr []), ("page", .str ""),
    ("totalPages", .str "")]

/-- The `parseDA2062Data` normalizer: direct `JSON.parse`, defaults on
failure. -/
def parseDA2062Data (result : String) : JVal :=
  match jsonParse result with
  | none => getDefaultDA2062Data
  | some data =>
    .obj [("handReceiptNumber", jsOrElse (jsGet data "handReceiptNumber") (.str "")),
      ("from", jsOrElse (jsGet data "from") (.str "")),
      ("to", jsOrElse (jsGet data "to") (.str "")),
      ("publicationDate", jsOrElse (jsGet data "publicationDate") (.str "")),
      ("items", match jsGet data "items" with
        | .arr xs => .arr (xs.map normalizeDA2062Item)
        | _ => .arr []),
      ("page", jsOrElse (jsGet data "page") (.str "")),
      ("totalPages", jsOrElse (jsGet data "totalPages") (.str ""))]

/-- The `normalizeDA3161Item` normalizer. -/
def normalizeDA3161Item (item : JVal) : JVal :=
  .obj [("itemNumber", .num (.fin (jsNumOr0 (jsGet item "itemNumber")))),
    ("stockNumber", jsOrElse (jsGet item "stockNumber") (.str "")),
    ("itemDescription", jsOrElse (jsGet item "itemDescription") (.str "")),
    ("unitOfIssue", jsOrElse (jsGet item "unitOfIssue") (.str "")),
    ("quantity", .num (.fin (jsNumOr0 (jsGet item "quantity")))),
    ("code", jsOrElse (jsGet item "code") (.str "")),
    ("supplyAction", jsOrElse (jsGet item "supplyAction") (.str "")),
    ("unitPrice", .num (.fin (jsNumOr0 (jsGet item "unitPrice")))),
    ("totalCost", .num (.fin (jsNumOr0 (jsGet item "totalCost"))))]

/-- The `getDefaultDA3161Data` fallback record (`transactionType` defaults
to `ISSUE`). -/
def getDefaultDA3161Data : JVal :=
  .obj [("requestNumber", .str ""), ("voucherNumber", .str ""), ("sendTo", .str ""),
    ("dateRequired", .str ""), ("dodAAC", .str ""), ("priority", .str ""),
    ("requestFrom", .str ""), ("transactionType", .str "ISSUE"), ("items", .arr []),
    ("signature", .str ""), ("date", .str "")]

/-- The strict-equality ternary
`data.transactionType === 'TURN-IN' ? 'TURN-IN' : 'ISSUE'`. -/
def transactionTypeOf (v : JVal) : String :=
  match v with
  | .str s => if s = "TURN-IN" then "TURN-IN" else "ISSUE"
  | _ => "ISSUE"

/-- The `parseDA3161Data` normalizer: direct `JSON.parse`, defaults on
failure. -/
def parseDA3161Data (result : String) : JVal :=
  match jsonParse result with
  | none => getDefaultDA3161Data
  | some data =>
    .obj [("requestNumber", jsOrElse (jsGet data "requestNumber") (.str "")),
      ("voucherNumber", jsOrElse (jsGet data "voucherNumber") (.str "")),
      ("sendTo", jsOrElse (jsGet data "sendTo") (.str "")),
      ("dateRequired", jsOrElse (jsGet data "dateRequired") (.str "")),
      ("dodAAC", jsOrElse (jsGet data "dodAAC") (.str "")),
      ("priority", jsOrElse (jsGet data "priority") (.str "")),
      ("requestFrom", jsOrElse (jsGet data "requestFrom") (.str "")),
      ("transactionType", .str (transactionTypeOf (jsGet data "transactionType"))),
      ("items", match jsGet data "items" with
        | .arr xs => .arr (xs.map normalizeDA3161Item)
        | _ => .arr []),
      ("signature", jsOrElse (jsGet data "signature") (.str "")),
      ("date", jsOrElse (jsGet data "date") (.str ""))]

/-- The flat `normalizeOCIEItem` normalizer of the form-aware service:
string defaults, `Number(·) || 0` for the on-hand quantity, `Boolean(·)`
for the transfer flags. -/
def normalizeOCIEItem (item : JVal) : JVal :=
  .obj [("issuingCif", jsOrElse (jsGet item "issuingCif") (.str "")),
    ("lin", jsOrElse (jsGet item "lin") (.str "")),
    ("size", jsOrElse (jsGet item "size") (.str "")),
    ("nomenclature", jsOrElse (jsGet item "nomenclature") (.str "")),
    ("nsn", jsOrElse (jsGet item "nsn") (.str "")),
    ("onHandQty", .num (.fin (jsNumOr0 (jsGet item "onHandQty")))),
    ("pcsTrans", .bool (jsTruthy (jsGet item "pcsTrans"))),
    ("etsTrans", .bool (jsTruthy (jsGet item "etsTrans")))]

/-- The `getDefaultOCIEData` fallback record of the form-aware service. -/
def getDefaultOCIEData : JVal :=
  .obj [("soldierName", .str ""), ("rankGrade", .str ""), ("ssnPid", .str ""),
    ("unit", .str ""), ("cifCode", .str ""), ("reportDate", .str ""),
    ("items", .arr []), ("signature", .str ""), ("statementDate", .str "")]

/-- The `parseOCIEData` normalizer of the form-aware service: direct
`JSON.parse` with flat header fields, defaults on failure. -/
def parseOCIEData (result : String) : JVal :=
  match jsonParse result with
  | none => getDefaultOCIEData
  | some data =>
    .obj [("soldierName", jsOrElse (jsGet data "soldierName") (.str "")),
      ("rankGrade", jsOrElse (jsGet data "rankGrade") (.str "")),
      ("ssnPid", jsOrElse (jsGet data "ssnPid") (.str "")),
      ("unit", jsOrElse (jsGet data "unit") (.str "")),
      ("cifCode", jsOrElse (jsGet data "cifCode") (.str "")),
      ("reportDate", jsOrElse (jsGet data "reportDate") (.str "")),
      ("items", match jsGet data "items" with
        | .arr xs => .arr (xs.map normalizeOCIEItem)
        | _ => .arr []),
      ("signature", jsOrElse (jsGet data "signature") (.str "")),
      ("statementDate", jsOrElse (jsGet data "statementDate") (.str ""))]

/-- The response-matching half of the form-aware `detectFormType` (labels
and the `HAND RECEIPT`/`REQUEST FOR ISSUE`/`3645` synonyms only); any
thrown error yields `Generic`. -/
def detectFormType (response : Except String String) : FormType :=
  match response with
  | .error _ => .Generic
  | .ok result =>
    let c := upperStr (trimStr result)
    if strIncludes c "DA2062" || strIncludes c "HAND RECEIPT" then .DA2062
    else if strIncludes c "DA3161" || strIncludes c "REQUEST FOR ISSUE" then .DA3161
    else if strIncludes c "OCIE" || strIncludes c "3645" then .OCIE
    else .Generic

end FormAware

/-! ## Statement helpers and concrete inputs used by the claim theorems -/

/-- The issues list of a normalized item. -/
def jvalIssues (r : JVal) : List JVal :=
  match jsGet r "issues" with
  | .arr l => l
  | _ => []

/-- Decide whether a value is the number `NaN`. -/
def isNanVal : JVal → Bool
  | .num .nan => true
  | _ => false

/-- Decide that a cleaned detection response contains none of the form-type
labels or synonyms recognized by either `detectFormType`. -/
def noFormTokens (s : String) : Bool :=
  let c := upperStr (trimStr s)
  !(strIncludes c "DA2062") && !(strIncludes c "HAND RECEIPT") &&
  !(strIncludes c "DA3161") && !(strIncludes c "REQUEST FOR ISSUE") &&
  !(strIncludes c "OCIE") && !(strIncludes c "3645") &&
  !(strIncludes c "RANK/GRADE") && !(strIncludes c "SSN/PID")

/-- Concrete OCIE item with on-hand quantity exceeding the authorized one. -/
def c3Item : JVal :=
  .obj [("quantities", .obj [("authorized", .num (.fin 1)), ("onHand", .num (.fin 3)),
    ("dueOut", .num (.fin 0))])]

/-- The normalization of `c3Item` (computed). -/
def c3Result : JVal :=
  .obj [("id", .str "ocie-item-0-0"), ("issuingCif", .str ""), ("lin", .str ""),
    ("size", .str ""), ("nomenclature", .str ""), ("edition", .undef), ("fig", .undef),
    ("withPc", .undef), ("partialNsn", .str ""), ("nsn", .str ""),
    ("quantities", .obj [("authorized", .num (.fin 1)), ("onHand", .num (.fin 3)),
      ("dueOut", .num (.fin 0))]),
    ("flags", .obj [("pcsTrans", .bool false), ("etsTrans", .bool false)]),
    ("confidence", .num (.fin 36)),
    ("issues", .arr [.str "OH QTY (3) > AUTH QTY (1)"])]

/-- Concrete flat-shape OCIE item (only `onHandQty`, negative). -/
def c3NegItem : JVal := .obj [("onHandQty", .num (.fin (Rat.divInt (-2) 1)))]

/-- Concrete flat-shape OCIE item carrying only `onHandQty`. -/
def c9Item : JVal := .obj [("onHandQty", .num (.fin 2))]

/-- Concrete JSON-safe object for the round-trip witness. -/
def c4Obj : JVal :=
  .obj [("to", .str "SGT Smith"), ("n", .num (.fin (Rat.divInt 5 2))),
    ("xs", .arr [.null, .bool true, .str "a\"b"])]

/-- Concrete OCR extraction whose keyword scores favor OCIE (8 matches)
while still meeting the DA 2062 threshold (2 matches). -/
def c6Data : ExtractedData :=
  ⟨"hand receipt annex number", "", "", "", "", "",
   "rank/grade ssn/pid cif code nomenclature auth qty oh qty"⟩

/-- The confidence record computed for an empty OCIE extraction. -/
def c1Conf : OCRConfidence :=
  ⟨0, 0, 0, [("soldierName", 0), ("rankGrade", 0), ("ssnPid", 0), ("unit", 0),
    ("cifCode", 0), ("reportDate", 0)]⟩

/-- The spec's HandReceipt example scenario raw model text: prose, then a
fenced JSON body. -/
def c7Fenced : String :=
  "Here you go:\n```json\n\x7b\"to\":\"SGT Smith\",\"items\":[\x7b\"stockNumber\":\"1005-01-231-0001\",\"quantities\":\x7b\"A\":\"2\"\x7d\x7d]\x7d\n```"

/-- The same JSON body without the prose and fence. -/
def c7Bare : String :=
  "\x7b\"to\":\"SGT Smith\",\"items\":[\x7b\"stockNumber\":\"1005-01-231-0001\",\"quantities\":\x7b\"A\":\"2\"\x7d\x7d]\x7d"

/-- The record the DA 2062 normalizer produces from the bare JSON body. -/
def c7Expected : JVal :=
  .obj [("handReceiptNumber", .str ""), ("from", .str ""), ("to", .str "SGT Smith"),
    ("publicationDate", .str ""),
    ("items", .arr [.obj [("stockNumber", .str "1005-01-231-0001"),
      ("itemDescription", .str ""), ("model", .str ""), ("securityCode", .str ""),
      ("unitOfIssue", .str ""), ("quantityAuth", .num (.fin 0)),
      ("quantities", .obj [("A", .num (.fin 2)), ("B", .num (.fin 0)),
        ("C", .num (.fin 0)), ("D", .num (.fin 0)), ("E", .num (.fin 0)),
        ("F", .num (.fin 0))])]]),
    ("page", .str ""), ("totalPages", .str "")]

/-- Concrete DA 2062 item whose authorized quantity is a negative number and
whose nested quantity `A` is a fractional decimal string. -/
def c2Item : JVal :=
  .obj [("quantityAuth", .num (.fin (Rat.divInt (-3) 1))),
    ("quantities", .obj [("A", .str "2.5")])]

/-- Concrete DA 2062 item with a negative fractional authorized quantity. -/
def c2WItem : JVal := .obj [("quantityAuth", .num (.fin (Rat.divInt (-7) 2)))]

/-- Concrete OCIE item whose authorized quantity source is a truthy
non-numeric string. -/
def c2NanItem : JVal := .obj [("quantities", .obj [("authorized", .str "abc")])]

/-! # Theorems

## Bridge lemmas: the reducible arithmetic agrees with the `ℚ` field
structure -/

theorem qadd_eq (a b : ℚ) : qadd a b = a + b := by
  conv_rhs => rw [← Rat.num_divInt_den a, ← Rat.num_divInt_den b]
  rw [Rat.divInt_add_divInt _ _ (by exact_mod_cast a.den_nz) (by exact_mod_cast b.den_nz)]
  rfl

theorem qmul_eq (a b : ℚ) : qmul a b = a * b := by
  conv_rhs => rw [← Rat.num_divInt_den a, ← Rat.num_divInt_den b]
  rw [Rat.divInt_mul_divInt _ _ (by exact_mod_cast a.den_nz) (by exact_mod_cast b.den_nz)]
  rfl

theorem qdiv_eq (a b : ℚ) : qdiv a b = a / b := by
  rw [qdiv, show Rat.divInt b.den b.num = b⁻¹ from (Rat.inv_def' b).symm, qmul_eq,
    div_eq_mul_inv]

theorem qfloor_eq (q : ℚ) : qfloor q = ⌊q⌋ := by
  rw [qfloor, Rat.floor_def]

theorem jround_eq (q : ℚ) : jround q = ((⌊q + 1 / 2⌋ : ℤ) : ℚ) := by
  rw [jround, qfloor_eq, qadd_eq, Rat.divInt_eq_div]
  norm_num

theorem qsum_eq (l : List ℚ) : qsum l = l.sum := by
  induction l with
  | nil => rfl
  | cons x xs ih => rw [qsum, List.foldr_cons, ← qsum, ih, qadd_eq, List.sum_cons]

theorem jround_nonneg {q : ℚ} (h : 0 ≤ q) : 0 ≤ jround q := by
  rw [jround_eq]
  exact_mod_cast Int.floor_nonneg.mpr (by linarith)

theorem jround_le {q : ℚ} {c : ℕ} (h : q ≤ c) : jround q ≤ c := by
  rw [jround_eq]
  have : ⌊q + 1 / 2⌋ ≤ (c : ℤ) := by
    rw [Int.floor_le_iff]
    push_cast
    linarith
  exact_mod_cast this

/-! ## Claim 8: the classifier never propagates an error -/

/-- C8: both `detectFormType` classifiers return `Generic` for every internal
failure, and for every non-error response whose cleaned (trimmed, uppercased)
text contains none of the form-type labels or synonyms. -/
theorem claim8_classifier_never_fails :
    (∀ e : String, Enhanced.detectFormType (.error e) = .Generic ∧
      FormAware.detectFormType (.error e) = .Generic) ∧
    (∀ s : String, noFormTokens s = true →
      Enhanced.detectFormType (.ok s) = .Generic ∧
      FormAware.detectFormType (.ok s) = .Generic) := by
  refine ⟨fun e => ⟨rfl, rfl⟩, fun s h => ?_⟩
  rw [noFormTokens] at h
  simp only [Bool.and_eq_true, Bool.not_eq_true'] at h
  obtain ⟨⟨⟨⟨⟨⟨⟨h1, h2⟩, h3⟩, h4⟩, h5⟩, h6⟩, h7⟩, h8⟩ := h
  constructor
  · rw [Enhanced.detectFormType]
    simp only [h1, h2, h3, h4, h5, h6, h7, h8, Bool.or_self, if_false, Bool.false_or]
    rfl
  · rw [FormAware.detectFormType]
    simp only [h1, h2, h3, h4, h5, h6, Bool.or_self, if_false, Bool.false_or]
    rfl

/-- C8 witness: a timeout error and a concrete unrecognized response both
classify as `Generic`. -/
theorem claim8_witness :
    Enhanced.detectFormType (.error "timeout") = .Generic ∧
    FormAware.detectFormType (.error "timeout") = .Generic ∧
    noFormTokens "The response is unclear" = true ∧
    Enhanced.detectFormType (.ok "The response is unclear") = .Generic ∧
    FormAware.detectFormType (.ok "The response is unclear") = .Generic :=
  ⟨(claim8_classifier_never_fails.1 "timeout").1,
   (claim8_classifier_never_fails.1 "timeout").2,
   by decide,
   (claim8_classifier_never_fails.2 "The response is unclear" (by decide)).1,
   (claim8_classifier_never_fails.2 "The response is unclear" (by decide)).2⟩

/-! ## Claim 10: transfer flags are normalized by JavaScript truthiness -/

/-- C10: in both services' OCIE item normalizers the transfer flags follow
JavaScript truthiness — every non-empty string (including `"false"`) becomes
`true`, and (for `NaN`-free inputs, the only kind `JSON.parse` can deliver)
the result is `false` exactly for absent, `null`, `false`, `0` or
empty-string inputs. -/
theorem claim10_flags_truthiness :
    jsGet (FormAware.normalizeOCIEItem (.obj [])) "pcsTrans" = .bool false ∧
    jsGet (FormAware.normalizeOCIEItem (.obj [])) "etsTrans" = .bool false ∧
    ∀ v : JVal, isNanVal v = false →
      ((∀ s, v = .str s → s ≠ "" →
        jsGet (FormAware.normalizeOCIEItem (.obj [("pcsTrans", v)])) "pcsTrans" = .bool true ∧
        ociePcsFlag (.obj [("flags", .obj [("pcsTrans", v)])]) = true) ∧
      (jsGet (FormAware.normalizeOCIEItem (.obj [("pcsTrans", v)])) "pcsTrans" = .bool false ↔
        v = .undef ∨ v = .null ∨ v = .bool false ∨ v = .num (.fin 0) ∨ v = .str "") ∧
      (ociePcsFlag (.obj [("flags", .obj [("pcsTrans", v)])]) = false ↔
        v = .undef ∨ v = .null ∨ v = .bool false ∨ v = .num (.fin 0) ∨ v = .str "")) := by
  refine ⟨rfl, rfl, fun v hv => ?_⟩
  have hrec : jsGet (FormAware.normalizeOCIEItem (.obj [("pcsTrans", v)])) "pcsTrans" =
      .bool (jsTruthy v) := rfl
  have hflag : ociePcsFlag (.obj [("flags", .obj [("pcsTrans", v)])]) =
      jsTruthy (jsOrElse v .undef) := rfl
  have horc : jsTruthy (jsOrElse v .undef) = jsTruthy v := by
    rw [jsOrElse]
    by_cases h : jsTruthy v = true
    · rw [if_pos h]
    · rw [if_neg h, jsTruthy]
      exact (Bool.not_eq_true _ ▸ h : jsTruthy v = false).symm
  rw [hrec, hflag, horc]
  refine ⟨fun s hs hne => ?_, ?_, ?_⟩
  · subst hs
    simp only [jsTruthy, Bool.not_eq_true']
    simp [hne]
  · cases v with
    | undef => simp [jsTruthy]
    | null => simp [jsTruthy]
    | bool b => cases b <;> simp [jsTruthy]
    | num n =>
      cases n with
      | nan => simp [isNanVal] at hv
      | fin q =>
        by_cases hq : q = 0 <;> simp [jsTruthy, hq]
    | str s =>
      by_cases hs : s = "" <;> simp [jsTruthy, hs]
    | arr xs => simp [jsTruthy]
    | obj fs => simp [jsTruthy]
  · cases v with
    | undef => simp [jsTruthy]
    | null => simp [jsTruthy]
    | bool b => cases b <;> simp [jsTruthy]
    | num n =>
      cases n with
      | nan => simp [isNanVal] at hv
      | fin q =>
        by_cases hq : q = 0 <;> simp [jsTruthy, hq]
    | str s =>
      by_cases hs : s = "" <;> simp [jsTruthy, hs]
    | arr xs => simp [jsTruthy]
    | obj fs => simp [jsTruthy]

/-- C10 witness: the string `"false"` normalizes to flag `true` in both
services. -/
theorem claim10_witness :
    jsGet (FormAware.normalizeOCIEItem (.obj [("pcsTrans", .str "false")])) "pcsTrans" =
      .bool true ∧
    ociePcsFlag (.obj [("flags", .obj [("pcsTrans", .str "false")])]) = true := by
  have h := (claim10_flags_truthiness.2.2 (.str "false") (by decide)).1 "false" rfl (by decide)
  exact ⟨h.1, h.2⟩

/-! ## Claim 6: the keyword-scoring classification mode -/

/-- C6 counterexample: on this extraction the OCIE keyword count (8) is the
strict maximum and meets its threshold (1), yet the classifier returns
`DA2062` because the DA 2062 count (2) meets its own threshold first — the
highest count does not win. -/
theorem claim6_counterexample :
    Enhanced.da2062Score c6Data = 2 ∧
    Enhanced.da3161Score c6Data = 0 ∧
    Enhanced.ocieScore c6Data = 8 ∧
    Enhanced.classifyByKeywords c6Data = .DA2062 ∧
    FormType.DA2062 ≠ FormType.OCIE := by
  exact ⟨by decide, by decide, by decide, by decide, by decide⟩

/-- C6 as amended: the keyword mode is a fixed priority cascade, not an
argmax — `DA2062` wins iff its count reaches 2, else `DA3161` iff its count
reaches 2, else `OCIE` iff its count reaches 1, and `Generic` is returned
exactly when every count is below its threshold. -/
theorem claim6_amended_priority_cascade (d : ExtractedData) :
    (Enhanced.classifyByKeywords d = .DA2062 ↔ 2 ≤ Enhanced.da2062Score d) ∧
    (Enhanced.classifyByKeywords d = .DA3161 ↔
      Enhanced.da2062Score d < 2 ∧ 2 ≤ Enhanced.da3161Score d) ∧
    (Enhanced.classifyByKeywords d = .OCIE ↔
      Enhanced.da2062Score d < 2 ∧ Enhanced.da3161Score d < 2 ∧
        1 ≤ Enhanced.ocieScore d) ∧
    (Enhanced.classifyByKeywords d = .Generic ↔
      Enhanced.da2062Score d < 2 ∧ Enhanced.da3161Score d < 2 ∧
        Enhanced.ocieScore d < 1) := by
  rw [Enhanced.classifyByKeywords]
  split_ifs with h1 h2 h3 <;>
    refine ⟨?_, ?_, ?_, ?_⟩ <;> simp <;> omega

/-! ## Claim 5: normalizer total-defaulting on the empty object -/

/-- C5 counterexample: two text fields do not default to the empty string —
`transactionType` of the DA 3161 normalizer defaults to `"ISSUE"` and
`category` of the generic normalizer defaults to `"Other"`. -/
theorem claim5_counterexample :
    jsGet (FormAware.parseDA3161Data "\x7b\x7d") "transactionType" = .str "ISSUE" ∧
    jsGet (Enhanced.parseGenericData "\x7b\x7d") "category" = .str "Other" ∧
    "ISSUE" ≠ "" ∧ "Other" ≠ "" :=
  ⟨rfl, rfl, by decide, by decide⟩

/-- C5 as amended: normalizing the empty object yields, for every form type,
a record with every produced field at its default — empty strings, zero
quantities, `false` flags, empty item lists, and a zero confidence — except
that `transactionType` defaults to `"ISSUE"` and the generic `category` to
`"Other"`. -/
theorem claim5_amended_defaults (now : ℕ) :
    FormAware.parseDA2062Data "\x7b\x7d" = FormAware.getDefaultDA2062Data ∧
    FormAware.parseDA3161Data "\x7b\x7d" = FormAware.getDefaultDA3161Data ∧
    FormAware.parseOCIEData "\x7b\x7d" = FormAware.getDefaultOCIEData ∧
    Enhanced.parseGenericData "\x7b\x7d" = Enhanced.getDefaultGenericData ∧
    Enhanced.parseDA2062Data "\x7b\x7d" = Enhanced.getDefaultDA2062Data ∧
    Enhanced.parseOCIEData "\x7b\x7d" now =
      .obj [("soldierName", .str ""), ("rankGrade", .str ""), ("dodId", .str ""),
        ("ssnPid", .str ""), ("unit", .str ""), ("cifCode", .str ""),
        ("reportDate", .str ""), ("items", .arr []), ("totalValue", .undef),
        ("isSigned", .bool false), ("signatureText", .str ""), ("statementDate", .str ""),
        ("ocrConfidence", confToJVal c1Conf),
        ("extractionWarnings", .arr [.str "Missing soldier name", .str "Missing SSN/PID",
          .str "Missing unit information", .str "No items found"])] :=
  ⟨rfl, rfl, rfl, rfl, rfl, rfl⟩

/-! ## Claim 7: the HandReceipt example scenario -/

/-- C7 counterexample: the DA 2062 parser attempts only a direct
`JSON.parse`, so the fenced raw model text of the scenario parses to the
fully-defaulted record — `to` is empty, not `"SGT Smith"`, and there are no
items. -/
theorem claim7_counterexample :
    Enhanced.parseDA2062Data c7Fenced = Enhanced.getDefaultDA2062Data ∧
    FormAware.parseDA2062Data c7Fenced = FormAware.getDefaultDA2062Data ∧
    jsGet (Enhanced.parseDA2062Data c7Fenced) "to" = .str "" ∧
    jsGet (Enhanced.parseDA2062Data c7Fenced) "items" = .arr [] ∧
    "" ≠ "SGT Smith" :=
  ⟨rfl, rfl, rfl, rfl, by decide⟩

/-- C7 as amended: the fenced scenario text normalizes to the default
record (the DA 2062 parser strips no fences); the bare JSON body produces
exactly the claimed record — `to = "SGT Smith"`, one item with
`quantityAuth = 0`, `quantities.A = 2` (string coerced) and `B`–`F` zero. -/
theorem claim7_amended_bare_json :
    Enhanced.parseDA2062Data c7Bare = c7Expected ∧
    FormAware.parseDA2062Data c7Bare = c7Expected ∧
    jsGet c7Expected "to" = .str "SGT Smith" ∧
    (∃ item, jsGet c7Expected "items" = .arr [item] ∧
      jsGet item "quantityAuth" = .num (.fin 0) ∧
      jsGet (jsGet item "quantities") "A" = .num (.fin 2) ∧
      jsGet (jsGet item "quantities") "B" = .num (.fin 0) ∧
      jsGet (jsGet item "quantities") "C" = .num (.fin 0) ∧
      jsGet (jsGet item "quantities") "D" = .num (.fin 0) ∧
      jsGet (jsGet item "quantities") "E" = .num (.fin 0) ∧
      jsGet (jsGet item "quantities") "F" = .num (.fin 0)) :=
  ⟨rfl, rfl, rfl, ⟨_, rfl, rfl, rfl, rfl, rfl, rfl, rfl, rfl⟩⟩

/-! ## Claim 2: normalized quantities as non-negative integers -/

/-- C2 counterexample: normalization does not clamp or truncate — a negative
raw `quantityAuth` stays negative, a fractional decimal string for
`quantities.A` stays fractional, and a truthy non-numeric OCIE authorized
quantity becomes `NaN`; none of these is a non-negative integer. -/
theorem claim2_counterexample :
    jsGet (FormAware.normalizeDA2062Item c2Item) "quantityAuth" =
      .num (.fin (Rat.divInt (-3) 1)) ∧
    (Rat.divInt (-3) 1 : ℚ) < 0 ∧
    jsGet (jsGet (FormAware.normalizeDA2062Item c2Item) "quantities") "A" =
      .num (.fin (Rat.divInt 5 2)) ∧
    (¬ ∃ z : ℤ, (Rat.divInt 5 2 : ℚ) = (z : ℚ)) ∧
    ocieAuthorized c2NanItem = .nan := by
  refine ⟨rfl, ?_, rfl, ?_, rfl⟩
  · rw [Rat.divInt_eq_div]; norm_num
  · rintro ⟨z, hz⟩
    rw [Rat.divInt_eq_div] at hz
    have h5 : (5 : ℚ) = (z : ℚ) * 2 := by
      field_simp at hz
      linarith
    have : (5 : ℤ) = z * 2 := by exact_mod_cast h5
    omega

/-- C2 as amended: after normalization every HandReceipt quantity field is a
finite number — absent or non-numeric raw values become `0`, and finite
numeric raw values (including negative and fractional ones, and decimal
strings) pass through unchanged; the OCIE quantities are `Number(·)` of the
first truthy source, which likewise passes finite numbers through and can be
`NaN` for truthy non-numeric input. Non-negativity and integrality are not
enforced. -/
theorem claim2_amended_quantities (item : JVal) :
    (∃ q : ℚ, jsGet (FormAware.normalizeDA2062Item item) "quantityAuth" = .num (.fin q)) ∧
    (∀ q : ℚ, jsGet item "quantityAuth" = .num (.fin q) →
      jsGet (FormAware.normalizeDA2062Item item) "quantityAuth" = .num (.fin q)) ∧
    (jsGet item "quantityAuth" = .undef →
      jsGet (FormAware.normalizeDA2062Item item) "quantityAuth" = .num (.fin 0)) ∧
    (∀ q : ℚ, jsOptGet (jsGet item "quantities") "A" = .num (.fin q) →
      jsGet (jsGet (FormAware.normalizeDA2062Item item) "quantities") "A" = .num (.fin q)) ∧
    (∀ s : String, jsGet item "quantityAuth" = .str s →
      jsGet (FormAware.normalizeDA2062Item item) "quantityAuth" =
        .num (.fin (match jsStrToNumber s with | .nan => 0 | .fin q => q))) ∧
    (∀ q : ℚ, jsGet item "quantities" = .undef → jsGet item "onHandQty" = .num (.fin q) →
      q ≠ 0 → ocieAuthorized item = .fin q ∧ ocieOnHand item = .fin q) := by
  have hqa : jsGet (FormAware.normalizeDA2062Item item) "quantityAuth" =
      .num (.fin (jsNumOr0 (jsGet item "quantityAuth"))) := rfl
  have hA : jsGet (jsGet (FormAware.normalizeDA2062Item item) "quantities") "A" =
      .num (.fin (jsNumOr0 (jsOptGet (jsGet item "quantities") "A"))) := rfl
  refine ⟨⟨_, hqa⟩, fun q hq => ?_, fun hu => ?_, fun q hq => ?_, fun s hs => ?_,
    fun q hquant hoh hq0 => ?_⟩
  · rw [hqa, hq]; rfl
  · rw [hqa, hu]; rfl
  · rw [hA, hq]; rfl
  · rw [hqa, hs]; rfl
  · have ha : ocieAuthorized item = jsToNumber (jsOrElse (jsOrElse .undef
        (jsGet item "onHandQty")) (.num (.fin 0))) := by
      rw [ocieAuthorized, hquant]; rfl
    have ho : ocieOnHand item = jsToNumber (jsOrElse (jsOrElse .undef
        (jsGet item "onHandQty")) (.num (.fin 0))) := by
      rw [ocieOnHand, hquant]; rfl
    rw [ha, ho, hoh]
    have : jsOrElse (jsOrElse .undef (.num (.fin q))) (.num (.fin 0)) = .num (.fin q) := by
      rw [jsOrElse, jsOrElse]
      simp [jsTruthy, hq0]
    rw [this]
    exact ⟨rfl, rfl⟩

/-- C2 witness: a negative fractional authorized quantity passes through the
HandReceipt normalizer unchanged, and a flat negative on-hand quantity feeds
both OCIE quantity fields. -/
theorem claim2_witness :
    jsGet (FormAware.normalizeDA2062Item c2WItem) "quantityAuth" =
      .num (.fin (Rat.divInt (-7) 2)) ∧
    ocieAuthorized c3NegItem = .fin (Rat.divInt (-2) 1) ∧
    ocieOnHand c3NegItem = .fin (Rat.divInt (-2) 1) := by
  refine ⟨(claim2_amended_quantities c2WItem).2.1 (Rat.divInt (-7) 2) rfl, ?_, ?_⟩
  · exact ((claim2_amended_quantities c3NegItem).2.2.2.2.2 (Rat.divInt (-2) 1) rfl rfl
      (by decide)).1
  · exact ((claim2_amended_quantities c3NegItem).2.2.2.2.2 (Rat.divInt (-2) 1) rfl rfl
      (by decide)).2

/-! ## String head lemmas (to separate the distinct diagnostic families) -/

theorem ne_of_head {s t : String} (h : s.data.head? ≠ t.data.head?) : s ≠ t :=
  fun he => h (he ▸ rfl)

theorem append_head (p x : String) (c : Char) (hp : p.data.head? = some c) :
    (p ++ x).data.head? = some c := by
  rw [String.data_append]
  cases hd : p.data with
  | nil => rw [hd] at hp; cases hp
  | cons a as =>
    rw [hd] at hp
    simp only [List.head?_cons, Option.some.injEq] at hp
    simp [hp]

theorem ohIssueStr_head (a b : JNum) : (ohIssueStr a b).data.head? = some 'O' := by
  rw [ohIssueStr]
  exact append_head _ _ 'O' rfl

theorem mem_ite_singleton {α : Type} {c : Prop} [Decidable c] {e x : α}
    (h : x ∈ if c then [e] else ([] : List α)) : x = e := by
  split at h
  · simpa using h
  · simp at h

theorem jnumGT_self (n : JNum) : jnumGT n n = false := by
  cases n with
  | nan => rfl
  | fin q => simp [jnumGT]

/-- No element of the quantity or size diagnostics is an
`OH QTY (...) > AUTH QTY (...)` string unless it is the one pushed by the
on-hand check itself. -/
theorem ohIssue_not_mem_of_gt_false {item : JVal} {size : String} {a b : JNum}
    (hgt : jnumGT (ocieOnHand item) (ocieAuthorized item) = false) :
    ohIssueStr a b ∉ ocieQtyIssues item ++ ocieSizeIssues size := by
  intro hmem
  rw [ocieQtyIssues, hgt] at hmem
  simp only [Bool.false_eq_true, if_false, List.append_nil, List.mem_append] at hmem
  have hO := ohIssueStr_head a b
  rcases hmem with ((h1 | h2) | h4) | h5
  · refine absurd (mem_ite_singleton h1).symm (ne_of_head ?_)
    rw [append_head "Invalid NSN format: " _ 'I' rfl, hO]
    decide
  · refine absurd (mem_ite_singleton h2).symm (ne_of_head ?_)
    rw [append_head "Invalid Partial NSN format: " _ 'I' rfl, hO]
    decide
  · refine absurd (mem_ite_singleton h4).symm (ne_of_head ?_)
    rw [hO]
    decide
  · rw [ocieSizeIssues] at h5
    refine absurd (mem_ite_singleton h5).symm (ne_of_head ?_)
    rw [append_head "Unusual size format: " _ 'U' rfl, hO]
    decide

/-! ## Claim 3: on-hand versus authorized and negative quantities are flagged -/

/-- C3: whenever OCIE normalization completes, an on-hand quantity exceeding
the authorized one puts the `OH QTY (x) > AUTH QTY (y)` diagnostic (with both
numbers interpolated) in the item's issues, and any negative quantity puts
`Negative quantity detected` there. -/
theorem claim3_quantity_issues (item : JVal) (idx now : ℕ) (r : JVal)
    (h : Enhanced.normalizeOCIEItem item idx now = some r) :
    (jnumGT (ocieOnHand item) (ocieAuthorized item) = true →
      JVal.str (ohIssueStr (ocieOnHand item) (ocieAuthorized item)) ∈ jvalIssues r) ∧
    ((jnumLTc (ocieOnHand item) 0 || jnumLTc (ocieAuthorized item) 0 ||
        jnumLTc (ocieDueOut item) 0) = true →
      JVal.str "Negative quantity detected" ∈ jvalIssues r) := by
  rw [Enhanced.normalizeOCIEItem] at h
  simp only [bind, Option.bind_eq_some, pure, Option.some.injEq] at h
  obtain ⟨size, hsize, conf, hconf, hr⟩ := h
  subst hr
  constructor
  · intro hgt
    show JVal.str _ ∈ (ocieQtyIssues item ++ ocieSizeIssues size).map JVal.str
    refine List.mem_map_of_mem JVal.str (List.mem_append_left _ ?_)
    rw [ocieQtyIssues]
    refine List.mem_append_left _ (List.mem_append_right _ ?_)
    rw [hgt]
    simp
  · intro hneg
    show JVal.str _ ∈ (ocieQtyIssues item ++ ocieSizeIssues size).map JVal.str
    refine List.mem_map_of_mem JVal.str (List.mem_append_left _ ?_)
    rw [ocieQtyIssues]
    refine List.mem_append_right _ ?_
    rw [hneg]
    simp

/-- C3 witness: an item with authorized 1, on-hand 3 and due-out 0 carries
the `OH QTY (3) > AUTH QTY (1)` diagnostic. -/
theorem claim3_witness :
    JVal.str "OH QTY (3) > AUTH QTY (1)" ∈ jvalIssues c3Result ∧
    JVal.str "Negative quantity detected" ∈ jvalIssues ((Enhanced.normalizeOCIEItem c3NegItem
      0 0).getD .undef) := by
  constructor
  · have h := (claim3_quantity_issues c3Item 0 0 c3Result rfl).1 (by decide)
    have he : ohIssueStr (ocieOnHand c3Item) (ocieAuthorized c3Item) =
        "OH QTY (3) > AUTH QTY (1)" := by decide
    rwa [he] at h
  · exact (claim3_quantity_issues c3NegItem 0 0 _ rfl).2 (by decide)

/-! ## Claim 9: flat-shape items backfill authorized from on-hand -/

/-- C9: when the nested `quantities` source is absent the authorized
quantity is backfilled from the flat `onHandQty`, so it equals the on-hand
quantity (both in the extracted numbers and in the normalized record), and
no `OH QTY (...) > AUTH QTY (...)` diagnostic is ever emitted. -/
theorem claim9_flat_backfill (item : JVal) (idx now : ℕ) (r : JVal)
    (hq : jsGet item "quantities" = .undef)
    (h : Enhanced.normalizeOCIEItem item idx now = some r) :
    ocieAuthorized item = ocieOnHand item ∧
    jsGet (jsGet r "quantities") "authorized" = jsGet (jsGet r "quantities") "onHand" ∧
    ∀ a b : JNum, JVal.str (ohIssueStr a b) ∉ jvalIssues r := by
  have heq : ocieAuthorized item = ocieOnHand item := by
    rw [ocieAuthorized, ocieOnHand, hq]
    rfl
  have hgt : jnumGT (ocieOnHand item) (ocieAuthorized item) = false := by
    rw [heq, jnumGT_self]
  rw [Enhanced.normalizeOCIEItem] at h
  simp only [bind, Option.bind_eq_some, pure, Option.some.injEq] at h
  obtain ⟨size, hsize, conf, hconf, hr⟩ := h
  subst hr
  refine ⟨heq, ?_, ?_⟩
  · show JVal.num (ocieAuthorized item) = JVal.num (ocieOnHand item)
    rw [heq]
  · intro a b hmem
    have hmem' : ohIssueStr a b ∈ ocieQtyIssues item ++ ocieSizeIssues size := by
      have : JVal.str (ohIssueStr a b) ∈
          (ocieQtyIssues item ++ ocieSizeIssues size).map JVal.str := hmem
      simp only [List.mem_map, JVal.str.injEq] at this
      obtain ⟨x, hx, hfx⟩ := this
      rwa [hfx] at hx
    exact ohIssue_not_mem_of_gt_false hgt hmem'

/-- C9 witness: a flat item carrying only `onHandQty = 2` normalizes with
authorized equal to on-hand and without the mismatch diagnostic. -/
theorem claim9_witness :
    ocieAuthorized c9Item = ocieOnHand c9Item ∧
    (∀ a b : JNum, JVal.str (ohIssueStr a b) ∉
      jvalIssues ((Enhanced.normalizeOCIEItem c9Item 0 0).getD .undef)) := by
  have h := claim9_flat_backfill c9Item 0 0 ((Enhanced.normalizeOCIEItem c9Item 0 0).getD
    .undef) rfl rfl
  exact ⟨h.1, h.2.2⟩

/-! ## Claim 1: confidence score shape and bounds -/

theorem presenceScore_cases {v : JVal} {s : ℚ} (h : presenceScore v = some s) :
    s = 0 ∨ s = 100 := by
  rw [presenceScore] at h
  cases htn : trimNonempty v with
  | none => rw [htn] at h; cases h
  | some b =>
    rw [htn] at h
    simp only [Option.map_some', Option.some.injEq] at h
    cases b
    · left; rw [← h]; rfl
    · right; rw [← h]; rfl

theorem mapM_option_spec {α β : Type} (f : α → Option β) :
    ∀ (l : List α) (ys : List β), l.mapM f = some ys →
      ys.length = l.length ∧ ∀ y ∈ ys, ∃ x ∈ l, f x = some y := by
  intro l
  induction l with
  | nil =>
    intro ys h
    simp only [List.mapM_nil, pure, Option.some.injEq] at h
    subst h
    simp
  | cons x xs ih =>
    intro ys h
    rw [List.mapM_cons] at h
    simp only [bind, Option.bind_eq_some, pure, Option.some.injEq] at h
    obtain ⟨y, hy, ys', hys', hcons⟩ := h
    subst hcons
    obtain ⟨hlen, hall⟩ := ih ys' hys'
    refine ⟨by simp [hlen], ?_⟩
    intro z hz
    rcases List.mem_cons.mp hz with hz | hz
    · exact ⟨x, List.mem_cons_self x xs, hz ▸ hy⟩
    · obtain ⟨w, hw, hfw⟩ := hall z hz
      exact ⟨w, List.mem_cons_of_mem x hw, hfw⟩

theorem bonusFold_spec (item : JVal) :
    ∀ (l : List String) (st st' : ℚ × ℚ),
      l.foldlM (bonusStep item) st = some st' →
      0 ≤ st.1 → 0 < st.2 → 0 ≤ st'.1 ∧ 0 < st'.2 := by
  intro l
  induction l with
  | nil =>
    intro st st' h h1 h2
    simp only [List.foldlM_nil, pure, Option.some.injEq] at h
    subst h
    exact ⟨h1, h2⟩
  | cons f fs ih =>
    intro st st' h h1 h2
    rw [List.foldlM_cons] at h
    simp only [bind, Option.bind_eq_some] at h
    obtain ⟨st1, hst1, hrest⟩ := h
    rw [bonusStep] at hst1
    simp only [bind, Option.bind_eq_some, pure, Option.some.injEq] at hst1
    obtain ⟨b, _, hst1⟩ := hst1
    subst hst1
    refine ih _ st' hrest ?_ ?_
    · split
      · show 0 ≤ qadd st.1 10
        rw [qadd_eq]
        linarith
      · exact h1
    · split
      · show 0 < qadd st.2 (Rat.divInt 1 2)
        rw [qadd_eq, Rat.divInt_eq_div]
        norm_num
        linarith
      · exact h2

theorem itemConfidence_bounds {item : JVal} {c : ℚ}
    (h : calculateItemConfidence item = some c) : 0 ≤ c ∧ c ≤ 100 := by
  rw [calculateItemConfidence] at h
  simp only [bind, Option.bind_eq_some, pure, Option.some.injEq] at h
  obtain ⟨st, hst, hc⟩ := h
  have hbase1 : (0 : ℚ) ≤ qadd (qadd (qmul (if jsTruthy (jsGet item "lin") &&
      jsGEc (jsGet (jsGet item "lin") "length") 4 then (100:ℚ) else 0) (Rat.divInt 3 2))
      (qmul (if jsTruthy (jsGet item "nomenclature") &&
        jsGTc (jsGet (jsGet item "nomenclature") "length") 10 then (100:ℚ) else 0) 2))
      (qmul (if jsTruthy (jsOrElse (jsOptGet (jsGet item "quantities") "onHand")
          (jsGet item "onHandQty")) &&
        !jsIsNaN (jsOrElse (jsOptGet (jsGet item "quantities") "onHand")
          (jsGet item "onHandQty")) &&
        jsGEc (jsOrElse (jsOptGet (jsGet item "quantities") "onHand")
          (jsGet item "onHandQty")) 0 then (100:ℚ) else 0) 2) := by
    rw [qadd_eq, qadd_eq, qmul_eq, qmul_eq, qmul_eq, Rat.divInt_eq_div]
    have b1 : (0:ℚ) ≤ (if jsTruthy (jsGet item "lin") &&
        jsGEc (jsGet (jsGet item "lin") "length") 4 then (100:ℚ) else 0) := by positivity
    have b2 : (0:ℚ) ≤ (if jsTruthy (jsGet item "nomenclature") &&
        jsGTc (jsGet (jsGet item "nomenclature") "length") 10 then (100:ℚ) else 0) := by
      positivity
    have b3 : (0:ℚ) ≤ (if jsTruthy (jsOrElse (jsOptGet (jsGet item "quantities") "onHand")
          (jsGet item "onHandQty")) &&
        !jsIsNaN (jsOrElse (jsOptGet (jsGet item "quantities") "onHand")
          (jsGet item "onHandQty")) &&
        jsGEc (jsOrElse (jsOptGet (jsGet item "quantities") "onHand")
          (jsGet item "onHandQty")) 0 then (100:ℚ) else 0) := by positivity
    have h32 : (0:ℚ) < 3 / 2 := by norm_num
    nlinarith
  have hbase2 : (0 : ℚ) < Rat.divInt 11 2 := by
    rw [Rat.divInt_eq_div]
    norm_num
  obtain ⟨hs1, hs2⟩ := bonusFold_spec item _ _ st hst hbase1 hbase2
  have hq : 0 ≤ qdiv st.1 st.2 := by
    rw [qdiv_eq]
    exact div_nonneg hs1 (le_of_lt hs2)
  subst hc
  constructor
  · exact le_min (by norm_num) (jround_nonneg hq)
  · exact min_le_left _ _

theorem jround_mean_le_100 {l : List ℚ} {n : ℚ} (hn : 0 < n)
    (hall : ∀ x ∈ l, 0 ≤ x ∧ x ≤ 100) :
    0 ≤ jround (qdiv (qsum l) n) ∧
      (l.length = 0 ∨ (n : ℚ) = l.length → jround (qdiv (qsum l) n) ≤ 100) := by
  have hsum0 : 0 ≤ l.sum := List.sum_nonneg (fun x hx => (hall x hx).1)
  have hsum1 : l.sum ≤ (l.length : ℚ) * 100 := by
    calc l.sum ≤ l.length • (100 : ℚ) :=
      List.sum_le_card_nsmul l 100 (fun x hx => (hall x hx).2)
    _ = (l.length : ℚ) * 100 := by rw [nsmul_eq_mul]
  constructor
  · rw [qdiv_eq, qsum_eq]
    exact jround_nonneg (div_nonneg hsum0 (le_of_lt hn))
  · intro hcase
    rw [qdiv_eq, qsum_eq]
    refine jround_le (c := 100) ?_
    rcases hcase with hc | hc
    · simp only [hc] at hsum1
      push_cast at hsum1
      have : l.sum ≤ 0 := by linarith
      have hz : l.sum = 0 := le_antisymm this hsum0
      rw [hz, zero_div]
      norm_num
    · rw [div_le_iff₀ hn, hc]
      push_cast
      linarith

theorem itemsScore_bounds {data : JVal} {i : ℚ} (h : itemsScoreM data = some i) :
    0 ≤ i ∧ i ≤ 100 := by
  rw [itemsScoreM] at h
  split at h
  · rename_i x xs heq
    simp only [bind, Option.bind_eq_some, pure, Option.some.injEq] at h
    obtain ⟨cs, hcs, hi⟩ := h
    obtain ⟨hlen, hall⟩ := mapM_option_spec calculateItemConfidence (x :: xs) cs hcs
    have hpos : (0 : ℚ) < (cs.length : ℚ) := by
      rw [hlen, List.length_cons]
      exact_mod_cast Nat.succ_pos xs.length
    have hb : ∀ c ∈ cs, 0 ≤ c ∧ c ≤ 100 := by
      intro c hc
      obtain ⟨w, _, hw⟩ := hall c hc
      exact itemConfidence_bounds hw
    obtain ⟨h0, h100⟩ := jround_mean_le_100 hpos hb
    subst hi
    exact ⟨h0, h100 (Or.inr rfl)⟩
  · simp only [Option.some.injEq] at h
    subst h
    exact ⟨le_refl 0, by norm_num⟩

theorem headerScore_bounds {hs : List ℚ} (hlen : hs.length = 6)
    (hall : ∀ s ∈ hs, s = 0 ∨ s = 100) :
    0 ≤ jround (qdiv (qsum hs) ((headerFields.length : ℕ) : ℚ)) ∧
      jround (qdiv (qsum hs) ((headerFields.length : ℕ) : ℚ)) ≤ 100 := by
  have hn : (0 : ℚ) < ((headerFields.length : ℕ) : ℚ) := by norm_num [headerFields]
  have hb : ∀ s ∈ hs, 0 ≤ s ∧ s ≤ 100 := by
    intro s hsm
    rcases hall s hsm with h | h <;> rw [h] <;> norm_num
  obtain ⟨h0, h100⟩ := jround_mean_le_100 hn hb
  refine ⟨h0, h100 (Or.inr ?_)⟩
  rw [hlen]
  norm_num [headerFields]

/-- C1: every confidence record the OCIE scorer computes has
`0 ≤ overall ≤ 100`, `overall = round((header + items) / 2)`, `header` the
rounded mean of the six header presence scores (each 0 or 100), and `items`
the rounded mean of the per-item confidences — `0` for an absent or empty
items list. -/
theorem claim1_confidence_shape (data : JVal) (conf : OCRConfidence)
    (h : calculateOCIEConfidence data = some conf) :
    0 ≤ conf.overall ∧ conf.overall ≤ 100 ∧
    conf.overall = jround ((conf.header + conf.items) / 2) ∧
    conf.header = jround (((headerScoresM data).getD []).sum / 6) ∧
    ((headerScoresM data).getD []).length = 6 ∧
    (∀ s ∈ (headerScoresM data).getD [], s = 0 ∨ s = 100) ∧
    itemsScoreM data = some conf.items ∧
    (jsGet data "items" = .arr [] → conf.items = 0) ∧
    (∀ xs cs, jsGet data "items" = .arr xs → xs ≠ [] →
      xs.mapM calculateItemConfidence = some cs →
      conf.items = jround (cs.sum / cs.length)) := by
  rw [calculateOCIEConfidence] at h
  simp only [bind, Option.bind_eq_some, pure, Option.some.injEq] at h
  obtain ⟨hs, hhs, ist, hist, hconf⟩ := h
  subst hconf
  obtain ⟨hlen6, hmem⟩ := mapM_option_spec _ headerFields hs hhs
  have hall : ∀ s ∈ hs, s = 0 ∨ s = 100 := by
    intro s hsm
    obtain ⟨f, _, hf⟩ := hmem s hsm
    exact presenceScore_cases hf
  have hlen6' : hs.length = 6 := by rw [hlen6]; rfl
  have hgetD : (headerScoresM data).getD [] = hs := by rw [hhs]; rfl
  obtain ⟨hh0, hh100⟩ := headerScore_bounds hlen6' hall
  obtain ⟨hi0, hi100⟩ := itemsScore_bounds hist
  have hover : jround (qdiv (qadd (jround (qdiv (qsum hs) ((headerFields.length : ℕ) : ℚ)))
      ist) 2) = jround ((jround (qdiv (qsum hs) ((headerFields.length : ℕ) : ℚ)) + ist) / 2) := by
    rw [qdiv_eq, qadd_eq]
  refine ⟨?_, ?_, ?_, ?_, ?_, ?_, ?_, ?_, ?_⟩
  · show 0 ≤ jround (qdiv (qadd _ ist) 2)
    rw [qdiv_eq, qadd_eq]
    exact jround_nonneg (div_nonneg (by linarith) (by norm_num))
  · show jround (qdiv (qadd _ ist) 2) ≤ 100
    rw [qdiv_eq, qadd_eq]
    have : (jround (qdiv (qsum hs) ((headerFields.length : ℕ) : ℚ)) + ist) / 2 ≤ 100 := by
      rw [div_le_iff₀ (by norm_num : (0:ℚ) < 2)]
      linarith
    exact_mod_cast jround_le (c := 100) this
  · exact hover
  · show jround (qdiv (qsum hs) ((headerFields.length : ℕ) : ℚ)) =
      jround (((headerScoresM data).getD []).sum / 6)
    rw [hgetD, qdiv_eq, qsum_eq]
    norm_num [headerFields]
  · rw [hgetD, hlen6']
  · rw [hgetD]; exact hall
  · exact hist
  · intro hempty
    rw [itemsScoreM, hempty] at hist
    simp only [Option.some.injEq] at hist
    exact hist.symm
  · intro xs cs hxs hne hcs
    show ist = jround (cs.sum / (cs.length : ℚ))
    rw [itemsScoreM, hxs] at hist
    cases xs with
    | nil => exact absurd rfl hne
    | cons x xt =>
      simp only [bind, Option.bind_eq_some, pure, Option.some.injEq] at hist
      obtain ⟨cs', hcs', hi⟩ := hist
      rw [hcs] at hcs'
      simp only [Option.some.injEq] at hcs'
      subst hcs'
      rw [← hi, qdiv_eq, qsum_eq]

/-- C1 witness: the scorer on the empty extraction yields the all-zero
confidence record, which satisfies every clause of the shape theorem. -/
theorem claim1_witness :
    calculateOCIEConfidence (.obj []) = some c1Conf ∧
    (0 ≤ c1Conf.overall ∧ c1Conf.overall ≤ 100 ∧
      c1Conf.overall = jround ((c1Conf.header + c1Conf.items) / 2) ∧
      c1Conf.header = jround (((headerScoresM (.obj [])).getD []).sum / 6) ∧
      ((headerScoresM (.obj [])).getD []).length = 6 ∧
      (∀ s ∈ (headerScoresM (.obj [])).getD [], s = 0 ∨ s = 100) ∧
      itemsScoreM (.obj []) = some c1Conf.items ∧
      (jsGet (.obj []) "items" = .arr [] → c1Conf.items = 0) ∧
      (∀ xs cs, jsGet (.obj []) "items" = .arr xs → xs ≠ [] →
        xs.mapM calculateItemConfidence = some cs →
        c1Conf.items = jround (cs.sum / cs.length))) :=
  ⟨rfl, claim1_confidence_shape (.obj []) c1Conf rfl⟩

/-! ## Claim 4: decimal digit machinery -/

theorem digitCh_toNat {d : ℕ} (h : d < 10) : (digitCh d).toNat = 48 + d := by
  interval_cases d <;> rfl

theorem digitCh_isDigit {d : ℕ} (h : d < 10) : isDigitCh (digitCh d) = true := by
  interval_cases d <;> rfl

theorem isDigitCh_ne_of_lt {c x : Char} (hc : isDigitCh c = true) (hx : isDigitCh x = false) :
    c ≠ x := by
  intro he
  rw [he, hx] at hc
  cases hc

theorem natCharsAux_eq : ∀ (fuel n : ℕ), n ≤ fuel →
    natCharsAux fuel n = (Nat.digits 10 n).reverse.map digitCh := by
  intro fuel
  induction fuel with
  | zero =>
    intro n hn
    interval_cases n
    simp [natCharsAux]
  | succ f ih =>
    intro n hn
    by_cases h0 : n = 0
    · subst h0
      simp [natCharsAux]
    · rw [natCharsAux, if_neg h0, ih (n / 10) ?_, Nat.digits_def' (by norm_num : 1 < 10)
        (Nat.pos_of_ne_zero h0)]
      · rw [List.reverse_cons, List.map_append]
        rfl
      · have := Nat.div_lt_self (Nat.pos_of_ne_zero h0) (by norm_num : 1 < 10)
        omega

theorem natCharsAux_digits (n : ℕ) :
    natCharsAux (n + 1) n = (Nat.digits 10 n).reverse.map digitCh :=
  natCharsAux_eq (n + 1) n (Nat.le_succ n)

theorem natChars_all_digits (n : ℕ) : ∀ c ∈ natChars n, isDigitCh c = true := by
  intro c hc
  rw [natChars] at hc
  split at hc
  · simp only [List.mem_singleton] at hc
    subst hc
    rfl
  · rw [natCharsAux_digits] at hc
    simp only [List.mem_map, List.mem_reverse] at hc
    obtain ⟨d, hd, hdc⟩ := hc
    rw [← hdc]
    exact digitCh_isDigit (Nat.digits_lt_base (by norm_num) hd)

theorem natChars_ne_nil (n : ℕ) : natChars n ≠ [] := by
  rw [natChars]
  split
  · simp
  · rw [natCharsAux_digits]
    simp only [ne_eq, List.map_eq_nil_iff, List.reverse_eq_nil_iff]
    exact Nat.digits_ne_nil_iff_ne_zero.mpr (by assumption)

theorem spanDigits_append : ∀ (ds rest : List Char), (∀ c ∈ ds, isDigitCh c = true) →
    (∀ c, rest.head? = some c → isDigitCh c = false) →
    spanDigits (ds ++ rest) = (ds, rest) := by
  intro ds
  induction ds with
  | nil =>
    intro rest _ hrest
    cases rest with
    | nil => rfl
    | cons c cs =>
      rw [List.nil_append, spanDigits, if_neg]
      rw [hrest c rfl]
      simp
  | cons d ds ih =>
    intro rest hds hrest
    rw [List.cons_append, spanDigits, if_pos (hds d (List.mem_cons_self d ds)),
      ih rest (fun c hc => hds c (List.mem_cons_of_mem d hc)) hrest]

theorem digitsVal_zeros : ∀ (j : ℕ) (ds : List Char),
    digitsVal (List.replicate j '0' ++ ds) = digitsVal ds := by
  intro j
  induction j with
  | zero => intro ds; rfl
  | succ i ih =>
    intro ds
    rw [List.replicate_succ, List.cons_append]
    show List.foldl _ (10 * 0 + ('0'.toNat - 48)) _ = _
    exact ih ds

theorem digitsVal_foldl : ∀ (L : List ℕ) (acc : ℕ), (∀ d ∈ L, d < 10) →
    List.foldl (fun a c => 10 * a + (c.toNat - 48)) acc (L.map digitCh) =
      acc * 10 ^ L.length + Nat.ofDigits 10 L.reverse := by
  intro L
  induction L with
  | nil =>
    intro acc _
    simp [Nat.ofDigits]
  | cons d L ih =>
    intro acc hd
    rw [List.map_cons, List.foldl_cons, ih _ (fun x hx => hd x (List.mem_cons_of_mem d hx)),
      digitCh_toNat (hd d (List.mem_cons_self d L))]
    rw [List.reverse_cons, Nat.ofDigits_append]
    simp only [List.length_cons, List.length_reverse, Nat.ofDigits_singleton]
    have hds : 48 + d - 48 = d := by omega
    rw [hds]
    ring

theorem digitsVal_natChars (n : ℕ) : digitsVal (natChars n) = n := by
  rw [natChars]
  split
  · rename_i h
    subst h
    rfl
  · rw [natCharsAux_digits, digitsVal]
    have : (Nat.digits 10 n).reverse.map digitCh =
        ((Nat.digits 10 n).reverse).map digitCh := rfl
    rw [digitsVal_foldl _ 0 (fun d hd => Nat.digits_lt_base (by norm_num)
      (List.mem_reverse.mp hd))]
    rw [List.reverse_reverse, Nat.ofDigits_digits]
    ring

theorem digitsVal_digits_of (fp : ℕ) :
    digitsVal ((Nat.digits 10 fp).reverse.map digitCh) = fp := by
  rw [digitsVal, digitsVal_foldl _ 0 (fun d hd => Nat.digits_lt_base (by norm_num)
    (List.mem_reverse.mp hd)), List.reverse_reverse, Nat.ofDigits_digits]
  ring

theorem digits_len_le {fp k : ℕ} (h : fp < 10 ^ k) : (Nat.digits 10 fp).length ≤ k := by
  by_cases h0 : fp = 0
  · subst h0
    simp
  · by_contra hgt
    push_neg at hgt
    have h1 : 10 ^ (Nat.digits 10 fp).length ≤ 10 * fp :=
      Nat.base_pow_length_digits_le 10 fp (by norm_num) h0
  
    have h2 : 10 ^ (k + 1) ≤ 10 ^ (Nat.digits 10 fp).length :=
      Nat.pow_le_pow_right (by norm_num) hgt
    have h3 : 10 * fp < 10 * 10 ^ k := by omega
    rw [← pow_succ'] at h3
    omega

theorem fracChars_spec {k fp : ℕ} (h : fp < 10 ^ k) :
    (fracChars k fp).length = k ∧ digitsVal (fracChars k fp) = fp ∧
      (∀ c ∈ fracChars k fp, isDigitCh c = true) := by
  rw [fracChars, natCharsAux_digits]
  have hlen : ((Nat.digits 10 fp).reverse.map digitCh).length ≤ k := by
    simp only [List.length_map, List.length_reverse]
    exact digits_len_le h
  refine ⟨?_, ?_, ?_⟩
  · simp only [List.length_append, List.length_replicate]
    omega
  · rw [digitsVal_zeros, digitsVal_digits_of]
  · intro c hc
    rcases List.mem_append.mp hc with hc | hc
    · rw [List.eq_of_mem_replicate hc]
      rfl
    · simp only [List.mem_map, List.mem_reverse] at hc
      obtain ⟨d, hd, hdc⟩ := hc
      rw [← hdc]
      exact digitCh_isDigit (Nat.digits_lt_base (by norm_num) hd)

/-! ## Claim 4: number round trip -/

theorem parseNumBody_int (neg : Bool) (ds rest : List Char) (hne : ds ≠ [])
    (hds : ∀ c ∈ ds, isDigitCh c = true)
    (hrest : ∀ c, rest.head? = some c → isDigitCh c = false ∧ c ≠ '.') :
    parseNumBody neg (ds ++ rest) =
      some (Rat.divInt (if neg then -(digitsVal ds : ℤ) else (digitsVal ds : ℤ)) 1, rest) := by
  have hspan : spanDigits (ds ++ rest) = (ds, rest) :=
    spanDigits_append _ _ hds (fun c hc => (hrest c hc).1)
  rw [parseNumBody]
  simp only [hspan]
  rw [if_neg hne]
  cases rest with
  | nil => rfl
  | cons c cs =>
    have := hrest c rfl
    simp only []
    rw [if_neg this.2]

theorem parseNumBody_frac (neg : Bool) (ds es rest : List Char) (hne : ds ≠ [])
    (hds : ∀ c ∈ ds, isDigitCh c = true) (hene : es ≠ [])
    (hes : ∀ c ∈ es, isDigitCh c = true)
    (hrest : ∀ c, rest.head? = some c → isDigitCh c = false ∧ c ≠ '.') :
    parseNumBody neg (ds ++ '.' :: (es ++ rest)) =
      some (Rat.divInt
        (if neg then -(digitsVal ds * 10 ^ es.length + digitsVal es : ℤ)
         else (digitsVal ds * 10 ^ es.length + digitsVal es : ℤ)) (10 ^ es.length), rest) := by
  have hspan : spanDigits (ds ++ '.' :: (es ++ rest)) = (ds, '.' :: (es ++ rest)) :=
    spanDigits_append _ _ hds (fun c hc => by
      simp only [List.head?_cons, Option.some.injEq] at hc
      subst hc
      rfl)
  have hspan2 : spanDigits (es ++ rest) = (es, rest) :=
    spanDigits_append _ _ hes (fun c hc => (hrest c hc).1)
  rw [parseNumBody]
  simp only [hspan]
  rw [if_neg hne]
  simp only [if_pos rfl, hspan2]
  rw [if_neg hene]
  simp

theorem denPow_mod {q : ℚ} {k : ℕ} (h : denPow q = some k) : 10 ^ k % q.den = 0 := by
  have := List.find?_some h
  exact of_decide_eq_true this

theorem num_int_divInt {q : ℚ} (hden : q.den = 1) :
    Rat.divInt q.num 1 = q := by
  conv_rhs => rw [← Rat.num_divInt_den q]
  rw [hden]
  norm_num

theorem parseNum_print {q : ℚ} {k : ℕ} (hk : denPow q = some k) (rest : List Char)
    (hrest : ∀ c, rest.head? = some c → isDigitCh c = false ∧ c ≠ '.') :
    parseNum (printQ q ++ rest) = some (q, rest) := by
  have hden0 : q.den ≠ 0 := q.den_nz
  cases k with
  | zero =>
    have hden : q.den = 1 := Nat.dvd_one.mp (Nat.dvd_of_mod_eq_zero (by
      simpa using denPow_mod hk))
    rw [printQ, hk, intChars]
    by_cases hneg : q.num < 0
    · rw [if_pos hneg, List.cons_append]
      simp only [parseNum, if_true]
      rw [parseNumBody_int true _ _ (natChars_ne_nil _) (natChars_all_digits _) hrest]
      rw [digitsVal_natChars]
      simp only [if_true, Option.some.injEq, Prod.mk.injEq, and_true]
      rw [show -((q.num.natAbs : ℕ) : ℤ) = q.num by omega]
      exact num_int_divInt hden
    · rw [if_neg hneg]
      obtain ⟨c₀, t, hct⟩ := List.exists_cons_of_ne_nil (natChars_ne_nil q.num.natAbs)
      have hc₀ : isDigitCh c₀ = true :=
        natChars_all_digits _ c₀ (by rw [hct]; exact List.mem_cons_self _ _)
      rw [hct, List.cons_append]
      simp only [parseNum]
      rw [if_neg (isDigitCh_ne_of_lt hc₀ (by decide)), ← List.cons_append, ← hct,
        parseNumBody_int false _ _ (natChars_ne_nil _) (natChars_all_digits _) hrest]
      rw [digitsVal_natChars]
      simp only [Bool.false_eq_true, if_false, Option.some.injEq, Prod.mk.injEq, and_true]
      rw [show ((q.num.natAbs : ℕ) : ℤ) = q.num by omega]
      exact num_int_divInt hden
  | succ k =>
    have hdvd : q.den ∣ 10 ^ (k + 1) := Nat.dvd_of_mod_eq_zero (denPow_mod hk)
    have hpow0 : (0 : ℕ) < 10 ^ (k + 1) := by positivity
    have hd : ((q.den : ℕ) : ℚ) ≠ 0 := Nat.cast_ne_zero.mpr hden0
    set scaled : ℕ := q.num.natAbs * (10 ^ (k + 1) / q.den) with hscaled
    have hfp : scaled % 10 ^ (k + 1) < 10 ^ (k + 1) := Nat.mod_lt _ hpow0
    obtain ⟨hflen, hfval, hfdig⟩ := fracChars_spec hfp
    have hfne : fracChars (k + 1) (scaled % 10 ^ (k + 1)) ≠ [] := by
      intro h
      rw [h] at hflen
      simp at hflen
    have hscaledQ : ((scaled : ℕ) : ℚ) = (q.num.natAbs : ℚ) * ((10 : ℚ) ^ (k + 1) / q.den) := by
      rw [hscaled, Nat.cast_mul, Nat.cast_div hdvd hd]
      push_cast
      ring
    have hvalQ : ((scaled : ℕ) : ℚ) / (10 : ℚ) ^ (k + 1) = (q.num.natAbs : ℚ) / q.den := by
      rw [hscaledQ]
      field_simp
      ring
    have hsplit : (digitsVal (natChars (scaled / 10 ^ (k + 1))) * 10 ^
        (fracChars (k + 1) (scaled % 10 ^ (k + 1))).length +
        digitsVal (fracChars (k + 1) (scaled % 10 ^ (k + 1))) : ℤ) = (scaled : ℤ) := by
      rw [digitsVal_natChars, hfval, hflen]
      exact_mod_cast Nat.div_add_mod' scaled (10 ^ (k + 1))
    rw [printQ, hk]
    by_cases hneg : q.num < 0
    · rw [if_pos hneg]
      simp only [List.cons_append, List.nil_append, List.append_assoc, List.singleton_append]
      simp only [parseNum, if_true]
      rw [parseNumBody_frac true _ _ _ (natChars_ne_nil _) (natChars_all_digits _)
        hfne hfdig hrest]
      simp only [if_true, Option.some.injEq, Prod.mk.injEq, and_true]
      rw [show (-(digitsVal (natChars (scaled / 10 ^ (k + 1))) * 10 ^
          (fracChars (k + 1) (scaled % 10 ^ (k + 1))).length +
          digitsVal (fracChars (k + 1) (scaled % 10 ^ (k + 1))) : ℤ)) = -(scaled : ℤ) by
        rw [← hsplit]]
      rw [hflen, Rat.divInt_eq_div]
      push_cast
      rw [neg_div, hvalQ]
      have habs : ((q.num.natAbs : ℕ) : ℚ) = -((q.num : ℤ) : ℚ) := by
        have h1 : ((q.num.natAbs : ℕ) : ℤ) = -q.num := by omega
        calc ((q.num.natAbs : ℕ) : ℚ) = (((q.num.natAbs : ℕ) : ℤ) : ℚ) := (Int.cast_natCast _).symm
          _ = ((-q.num : ℤ) : ℚ) := by rw [h1]
          _ = -((q.num : ℤ) : ℚ) := by push_cast; ring
      rw [habs, neg_div, neg_neg, Rat.num_div_den]
    · rw [if_neg hneg]
      simp only [List.cons_append, List.nil_append, List.append_assoc, List.singleton_append]
      obtain ⟨c₀, t, hct⟩ :=
        List.exists_cons_of_ne_nil (natChars_ne_nil (scaled / 10 ^ (k + 1)))
      have hc₀ : isDigitCh c₀ = true :=
        natChars_all_digits _ c₀ (by rw [hct]; exact List.mem_cons_self _ _)
      rw [hct, List.cons_append]
      simp only [parseNum]
      rw [if_neg (isDigitCh_ne_of_lt hc₀ (by decide)), ← List.cons_append, ← hct]
      rw [parseNumBody_frac false _ _ _ (natChars_ne_nil _) (natChars_all_digits _)
        hfne hfdig hrest]
      simp only [Bool.false_eq_true, if_false, Option.some.injEq, Prod.mk.injEq, and_true]
      rw [hsplit, hflen, Rat.divInt_eq_div]
      push_cast
      rw [hvalQ]
      have habs : ((q.num.natAbs : ℕ) : ℚ) = ((q.num : ℤ) : ℚ) := by
        have h1 : ((q.num.natAbs : ℕ) : ℤ) = q.num := by omega
        calc ((q.num.natAbs : ℕ) : ℚ) = (((q.num.natAbs : ℕ) : ℤ) : ℚ) := (Int.cast_natCast _).symm
          _ = ((q.num : ℤ) : ℚ) := by rw [h1]
      rw [habs, Rat.num_div_den]
theorem hexVal_hexCh {d : ℕ} (h : d < 16) : hexVal (hexCh d) = some d := by
  interval_cases d <;> rfl

theorem parseStr_u (d1 d2 : ℕ) (h1 : d1 < 16) (h2 : d2 < 16) (fuel : ℕ) (T : List Char) :
    parseStrF (fuel + 1) ('\\' :: 'u' :: '0' :: '0' :: hexCh d1 :: hexCh d2 :: T) =
      (parseStrF fuel T).map (fun p => (Char.ofNat (d1 * 16 + d2) :: p.1, p.2)) := by
  have e1 := hexVal_hexCh h1
  have e2 := hexVal_hexCh h2
  simp [parseStrF, e1, e2, show hexVal '0' = some 0 from rfl]

theorem escapeCh_parse (c : Char) (fuel : ℕ) (T : List Char) :
    parseStrF (fuel + 1) (escapeCh c ++ T) =
      (parseStrF fuel T).map (fun p => (c :: p.1, p.2)) := by
  by_cases h1 : c = '"'
  · subst h1; rfl
  by_cases h2 : c = '\\'
  · subst h2; rfl
  by_cases h3 : c = '\n'
  · subst h3; rfl
  by_cases h4 : c = '\r'
  · subst h4; rfl
  by_cases h5 : c = '\t'
  · subst h5; rfl
  by_cases h6 : c = '\x08'
  · subst h6; rfl
  by_cases h7 : c = '\x0c'
  · subst h7; rfl
  by_cases h8 : c.toNat < 32
  · rw [escapeCh, if_neg h1, if_neg h2, if_neg h3, if_neg h4, if_neg h5, if_neg h6, if_neg h7,
      if_pos h8]
    simp only [List.cons_append, List.nil_append]
    rw [parseStr_u (c.toNat / 16) (c.toNat % 16) (by omega) (by omega),
      Nat.div_add_mod', Char.ofNat_toNat]
  · rw [escapeCh, if_neg h1, if_neg h2, if_neg h3, if_neg h4, if_neg h5, if_neg h6, if_neg h7,
      if_neg h8, List.singleton_append]
    simp only [parseStrF]
    rw [if_neg h1, if_neg h2, if_neg h8]

theorem escapeCh_ne_nil (c : Char) : escapeCh c ≠ [] := by
  rw [escapeCh]
  repeat' split
  all_goals simp

theorem escape_flatten_len (l : List Char) : l.length ≤ ((l.map escapeCh).flatten).length := by
  induction l with
  | nil => simp
  | cons c l ih =>
    simp only [List.map_cons, List.flatten_cons, List.length_append, List.length_cons]
    have h1 : 0 < (escapeCh c).length := List.length_pos.mpr (escapeCh_ne_nil c)
    omega

theorem parseStrF_quote : ∀ (l : List Char) (fuel : ℕ) (rest : List Char), l.length < fuel →
    parseStrF fuel ((l.map escapeCh).flatten ++ '"' :: rest) = some (l, rest) := by
  intro l
  induction l with
  | nil =>
    intro fuel rest h
    match fuel, h with
    | fuel + 1, _ => rfl
  | cons c l ih =>
    intro fuel rest h
    match fuel, h with
    | fuel + 1, h =>
      simp only [List.map_cons, List.flatten_cons, List.append_assoc]
      rw [escapeCh_parse, ih fuel rest (by simpa using Nat.lt_of_succ_lt_succ h)]
      rfl

theorem parseStrChars_quote (l rest : List Char) :
    parseStrChars ((l.map escapeCh).flatten ++ '"' :: rest) = some (l, rest) := by
  rw [parseStrChars]
  refine parseStrF_quote l _ rest ?_
  have := escape_flatten_len l
  simp only [List.length_append, List.length_cons]
  omega

theorem isDigitCh_not_ws {c : Char} (h : isDigitCh c = true) : isWsJson c = false := by
  by_contra hw
  rw [Bool.not_eq_false, isWsJson] at hw
  simp only [Bool.or_eq_true, decide_eq_true_eq] at hw
  rcases hw with ((h1 | h1) | h1) | h1 <;> subst h1 <;> exact absurd h (by decide)
theorem printQ_shape {q : ℚ} {k : ℕ} (hk : denPow q = some k) :
    ∃ c t, printQ q = c :: t ∧ (c = '-' ∨ isDigitCh c = true) := by
  cases k with
  | zero =>
    by_cases h : q.num < 0
    · refine ⟨'-', natChars q.num.natAbs, ?_, Or.inl rfl⟩
      rw [printQ, hk, intChars, if_pos h]
    · obtain ⟨c, t, hct⟩ := List.exists_cons_of_ne_nil (natChars_ne_nil q.num.natAbs)
      refine ⟨c, t, ?_,
        Or.inr (natChars_all_digits _ c (by rw [hct]; exact List.mem_cons_self _ _))⟩
      rw [printQ, hk, intChars, if_neg h, hct]
  | succ k =>
    by_cases h : q.num < 0
    · refine ⟨'-', natChars (q.num.natAbs * (10 ^ (k + 1) / q.den) / 10 ^ (k + 1)) ++
        '.' :: fracChars (k + 1) (q.num.natAbs * (10 ^ (k + 1) / q.den) % 10 ^ (k + 1)), ?_,
        Or.inl rfl⟩
      rw [printQ, hk, if_pos h]
      rfl
    · obtain ⟨c, t, hct⟩ := List.exists_cons_of_ne_nil
        (natChars_ne_nil (q.num.natAbs * (10 ^ (k + 1) / q.den) / 10 ^ (k + 1)))
      have hbody : printQ q = natChars (q.num.natAbs * (10 ^ (k + 1) / q.den) / 10 ^ (k + 1)) ++
          '.' :: fracChars (k + 1) (q.num.natAbs * (10 ^ (k + 1) / q.den) % 10 ^ (k + 1)) := by
        rw [printQ, hk, if_neg h]
        rfl
      refine ⟨c, t ++
        '.' :: fracChars (k + 1) (q.num.natAbs * (10 ^ (k + 1) / q.den) % 10 ^ (k + 1)), ?_,
        Or.inr (natChars_all_digits _ c (by rw [hct]; exact List.mem_cons_self _ _))⟩
      rw [hbody, hct]
      rfl

theorem printChars_head {sf : ℕ} {v : JVal} (h : jsonSafeF sf v = true) :
    ∃ c t, printChars v = c :: t ∧ isWsJson c = false ∧ c ≠ ']' := by
  cases sf with
  | zero => exact absurd h (by simp [jsonSafeF])
  | succ sf =>
    cases v with
    | undef => exact absurd h (by simp [jsonSafeF])
    | null =>
      refine ⟨'n', ['u', 'l', 'l'], ?_, by decide, by decide⟩
      rw [printChars]
    | bool b =>
      cases b with
      | true =>
        refine ⟨'t', ['r', 'u', 'e'], ?_, by decide, by decide⟩
        rw [printChars]
        rfl
      | false =>
        refine ⟨'f', ['a', 'l', 's', 'e'], ?_, by decide, by decide⟩
        rw [printChars]
        rfl
    | num n =>
      cases n with
      | nan => exact absurd h (by simp [jsonSafeF])
      | fin q =>
        have hk : ∃ k, denPow q = some k := by
          simpa [jsonSafeF, Option.isSome_iff_exists] using h
        obtain ⟨k, hk⟩ := hk
        obtain ⟨c, t, hct, hc⟩ := printQ_shape hk
        refine ⟨c, t, ?_, ?_, ?_⟩
        · rw [printChars]
          exact hct
        · rcases hc with h1 | h1
          · subst h1; decide
          · exact isDigitCh_not_ws h1
        · rcases hc with h1 | h1
          · subst h1; decide
          · exact isDigitCh_ne_of_lt h1 (by decide)
    | str s =>
      refine ⟨'"', (s.data.map escapeCh).flatten ++ ['"'], ?_, by decide, by decide⟩
      rw [printChars, quoteChars]
      rfl
    | arr xs =>
      refine ⟨'[', printElems xs, ?_, by decide, by decide⟩
      rw [printChars]
    | obj fs =>
      refine ⟨'{', printFields fs, ?_, by decide, by decide⟩
      rw [printChars]

theorem printElems_head {sf : ℕ} {x : JVal} (xs : List JVal) (h : jsonSafeF sf x = true) :
    ∃ c t, printElems (x :: xs) = c :: t ∧ isWsJson c = false ∧ c ≠ ']' := by
  obtain ⟨c, t, hct, hws, hne⟩ := printChars_head h
  cases xs with
  | nil =>
    refine ⟨c, t ++ [']'], ?_, hws, hne⟩
    rw [printElems, hct]
    rfl
  | cons y ys =>
    refine ⟨c, t ++ ',' :: printElems (y :: ys), ?_, hws, hne⟩
    rw [printElems, hct]
    rfl

theorem printFields_head (k : String) (v : JVal) (fs : List (String × JVal)) :
    ∃ t, printFields ((k, v) :: fs) = '"' :: t := by
  cases fs with
  | nil =>
    refine ⟨(k.data.map escapeCh).flatten ++ ['"'] ++ ':' :: printChars v ++ ['}'], ?_⟩
    rw [printFields, quoteChars]
    rfl
  | cons f fs =>
    refine ⟨(k.data.map escapeCh).flatten ++ ['"'] ++
      ':' :: printChars v ++ ',' :: printFields (f :: fs), ?_⟩
    rw [printFields, quoteChars]
    rfl

theorem printFields_close : ∀ fs : List (String × JVal), ∃ Z, printFields fs = Z ++ ['}'] := by
  intro fs
  induction fs with
  | nil =>
    refine ⟨[], ?_⟩
    rw [printFields]
    rfl
  | cons f fs ih =>
    obtain ⟨k, v⟩ := f
    cases fs with
    | nil =>
      refine ⟨quoteChars k ++ ':' :: printChars v, ?_⟩
      rw [printFields]
    | cons g gs =>
      obtain ⟨Z, hZ⟩ := ih
      refine ⟨quoteChars k ++ ':' :: printChars v ++ ',' :: Z, ?_⟩
      rw [printFields, hZ]
      simp

theorem insertField_fresh (acc : List (String × JVal)) (k : String) (v : JVal)
    (h : k ∉ acc.map Prod.fst) : insertField acc k v = acc ++ [(k, v)] := by
  have hc : (acc.any (fun p => p.1 = k)) = false := by
    rw [List.any_eq_false]
    intro p hp he
    exact h (List.mem_map.mpr ⟨p, hp, of_decide_eq_true he⟩)
  rw [insertField, hc]
  simp
theorem parseVal_lbrack (fuel : ℕ) (cs : List Char) :
    parseVal (fuel + 1) ('[' :: cs) =
      (match cs.dropWhile isWsJson with
      | [] => none
      | d :: r =>
        if d = ']' then some (JVal.arr [], r)
        else (parseElems fuel (d :: r)).map (fun p => (JVal.arr p.1, p.2))) := rfl

theorem parseVal_lbrace (fuel : ℕ) (cs : List Char) :
    parseVal (fuel + 1) ('{' :: cs) =
      (match cs.dropWhile isWsJson with
      | [] => none
      | d :: r =>
        if d = '}' then some (JVal.obj [], r)
        else (parseFields fuel [] (d :: r)).map (fun p => (JVal.obj p.1, p.2))) := rfl

theorem parseElems_succ (fuel : ℕ) (cs : List Char) :
    parseElems (fuel + 1) cs = (parseVal fuel cs).bind (fun p =>
      match p.2.dropWhile isWsJson with
      | [] => none
      | d :: r2 =>
        if d = ',' then (parseElems fuel r2).map (fun q => (p.1 :: q.1, q.2))
        else if d = ']' then some ([p.1], r2)
        else none) := rfl

theorem parseFields_str (fuel : ℕ) (acc : List (String × JVal)) (cs : List Char) :
    parseFields (fuel + 1) acc ('"' :: cs) =
      (parseStrChars cs).bind (fun p =>
        match p.2.dropWhile isWsJson with
        | [] => none
        | d :: r2 =>
          if d = ':' then
            (parseVal fuel r2).bind (fun q =>
              match q.2.dropWhile isWsJson with
              | [] => none
              | e :: r4 =>
                if e = ',' then
                  parseFields fuel (insertField acc (String.mk p.1) q.1) (r4.dropWhile isWsJson)
                else if e = '}' then some (insertField acc (String.mk p.1) q.1, r4)
                else none)
          else none) := rfl
set_option maxHeartbeats 1000000

theorem parse_print : ∀ fuel : ℕ,
    (∀ (sf : ℕ) (v : JVal) (rest : List Char), jsonSafeF sf v = true →
      (printChars v).length < fuel →
      (∀ c, rest.head? = some c → isDigitCh c = false ∧ c ≠ '.') →
      parseVal fuel (printChars v ++ rest) = some (v, rest)) ∧
    (∀ (sf : ℕ) (x : JVal) (xs : List JVal) (rest : List Char),
      (x :: xs).all (jsonSafeF sf) = true →
      (printElems (x :: xs)).length < fuel →
      parseElems fuel (printElems (x :: xs) ++ rest) = some (x :: xs, rest)) ∧
    (∀ (sf : ℕ) (acc : List (String × JVal)) (k : String) (v : JVal)
      (fs : List (String × JVal)) (rest : List Char),
      (((k, v) :: fs).all (fun p => jsonSafeF sf p.2)) = true →
      (acc.map Prod.fst ++ ((k, v) :: fs).map Prod.fst).Nodup →
      (printFields ((k, v) :: fs)).length < fuel →
      parseFields fuel acc (printFields ((k, v) :: fs) ++ rest) =
        some (acc ++ (k, v) :: fs, rest)) := by
  intro fuel
  induction fuel with
  | zero =>
    refine ⟨?_, ?_, ?_⟩
    · intro sf v rest _ hfuel _
      omega
    · intro sf x xs rest _ hfuel
      omega
    · intro sf acc k v fs rest _ _ hfuel
      omega
  | succ fuel ih =>
    obtain ⟨ihV, ihE, ihF⟩ := ih
    refine ⟨?_, ?_, ?_⟩
    · intro sf v rest hsafe hfuel hrest
      cases sf with
      | zero => simp [jsonSafeF] at hsafe
      | succ sf =>
        cases v with
        | undef => simp [jsonSafeF] at hsafe
        | null =>
          rw [show printChars .null = ['n', 'u', 'l', 'l'] from by rw [printChars]]
          rfl
        | bool b =>
          cases b with
          | true =>
            rw [show printChars (.bool true) = ['t', 'r', 'u', 'e'] from by
              rw [printChars]; rfl]
            rfl
          | false =>
            rw [show printChars (.bool false) = ['f', 'a', 'l', 's', 'e'] from by
              rw [printChars]; rfl]
            rfl
        | num n =>
          cases n with
          | nan => simp [jsonSafeF] at hsafe
          | fin q =>
            simp only [jsonSafeF] at hsafe
            rw [Option.isSome_iff_exists] at hsafe
            obtain ⟨k, hk⟩ := hsafe
            obtain ⟨c, t, hct, hc⟩ := printQ_shape hk
            rw [show printChars (.num (.fin q)) = printQ q from by rw [printChars], hct,
              List.cons_append]
            rcases hc with h1 | hdig
            · subst h1
              show (parseNum ('-' :: (t ++ rest))).map (fun p => (JVal.num (.fin p.1), p.2)) =
                some (.num (.fin q), rest)
              rw [← List.cons_append, ← hct, parseNum_print hk rest hrest]
              rfl
            · have hws := isDigitCh_not_ws hdig
              simp only [parseVal, List.dropWhile_cons, hws, Bool.false_eq_true, if_false]
              rw [if_neg (isDigitCh_ne_of_lt (x := 'n') hdig (by decide)),
                if_neg (isDigitCh_ne_of_lt (x := 't') hdig (by decide)),
                if_neg (isDigitCh_ne_of_lt (x := 'f') hdig (by decide)),
                if_neg (isDigitCh_ne_of_lt (x := '"') hdig (by decide)),
                if_neg (isDigitCh_ne_of_lt (x := '[') hdig (by decide)),
                if_neg (isDigitCh_ne_of_lt (x := '{') hdig (by decide)),
                if_pos (by rw [hdig, Bool.or_true])]
              rw [← List.cons_append, ← hct, parseNum_print hk rest hrest]
              rfl
        | str s =>
          rw [show printChars (.str s) = '"' :: ((s.data.map escapeCh).flatten ++ ['"']) from by
            rw [printChars, quoteChars]; rfl, List.cons_append]
          show (parseStrChars (((s.data.map escapeCh).flatten ++ ['"']) ++ rest)).map
              (fun p => (JVal.str (String.mk p.1), p.2)) = some (.str s, rest)
          rw [List.append_assoc, List.singleton_append, parseStrChars_quote]
          rfl
        | arr xs =>
          have hpc : printChars (.arr xs) = '[' :: printElems xs := by rw [printChars]
          simp only [jsonSafeF] at hsafe
          rw [hpc, List.cons_append]
          cases xs with
          | nil =>
            rw [show printElems [] = [']'] from by rw [printElems]]
            rfl
          | cons x xs =>
            have hx : jsonSafeF sf x = true := by
              simp only [List.all_cons, Bool.and_eq_true] at hsafe
              exact hsafe.1
            obtain ⟨c, t, hct, hws, hne⟩ := printElems_head xs hx
            rw [hct, List.cons_append, parseVal_lbrack]
            simp only [List.dropWhile_cons, hws, Bool.false_eq_true, if_false]
            rw [if_neg hne, ← List.cons_append, ← hct]
            have hlen2 : (printElems (x :: xs)).length < fuel := by
              rw [hpc] at hfuel
              simp only [List.length_cons] at hfuel
              omega
            rw [ihE sf x xs rest hsafe hlen2]
            rfl
        | obj fs =>
          have hpc : printChars (.obj fs) = '{' :: printFields fs := by rw [printChars]
          simp only [jsonSafeF, Bool.and_eq_true, decide_eq_true_eq] at hsafe
          rw [hpc, List.cons_append]
          cases fs with
          | nil =>
            rw [show printFields [] = ['}'] from by rw [printFields]]
            rfl
          | cons f fs =>
            obtain ⟨k₀, v₀⟩ := f
            obtain ⟨t, ht⟩ := printFields_head k₀ v₀ fs
            rw [ht, List.cons_append, parseVal_lbrace]
            simp only [List.dropWhile_cons, show isWsJson '"' = false from rfl,
              Bool.false_eq_true, if_false]
            rw [if_neg (by decide : ¬('"' : Char) = '}'), ← List.cons_append, ← ht]
            have hlen2 : (printFields ((k₀, v₀) :: fs)).length < fuel := by
              rw [hpc] at hfuel
              simp only [List.length_cons] at hfuel
              omega
            have hnd : (([] : List (String × JVal)).map Prod.fst ++
                ((k₀, v₀) :: fs).map Prod.fst).Nodup := by
              simpa using hsafe.2
            rw [ihF sf [] k₀ v₀ fs rest hsafe.1 hnd hlen2]
            rfl
    · intro sf x xs rest hall hlen
      have hx : jsonSafeF sf x = true := by
        simp only [List.all_cons, Bool.and_eq_true] at hall
        exact hall.1
      cases xs with
      | nil =>
        have hpe : printElems [x] = printChars x ++ [']'] := by rw [printElems]
        rw [hpe, List.append_assoc, List.singleton_append, parseElems_succ]
        have hlenx : (printChars x).length < fuel := by
          rw [hpe] at hlen
          simp only [List.length_append, List.length_singleton] at hlen
          omega
        rw [ihV sf x (']' :: rest) hx hlenx (by
          intro c hc
          simp only [List.head?_cons, Option.some.injEq] at hc
          subst hc
          exact ⟨by decide, by decide⟩)]
        rfl
      | cons y ys =>
        have hpe : printElems (x :: y :: ys) = printChars x ++ ',' :: printElems (y :: ys) := by
          rw [printElems]
        rw [hpe, List.append_assoc, List.cons_append, parseElems_succ]
        have hlens : (printChars x).length < fuel ∧ (printElems (y :: ys)).length < fuel := by
          rw [hpe] at hlen
          simp only [List.length_append, List.length_cons] at hlen
          obtain ⟨c, t, hct, -, -⟩ := printChars_head hx
          have hpos : 0 < (printChars x).length := by rw [hct]; simp
          omega
        rw [ihV sf x (',' :: (printElems (y :: ys) ++ rest)) hx hlens.1 (by
          intro c hc
          simp only [List.head?_cons, Option.some.injEq] at hc
          subst hc
          exact ⟨by decide, by decide⟩)]
        have hall' : (y :: ys).all (jsonSafeF sf) = true := by
          simp only [List.all_cons, Bool.and_eq_true] at hall ⊢
          exact hall.2
        show (parseElems fuel (printElems (y :: ys) ++ rest)).map
            (fun q => (x :: q.1, q.2)) = some (x :: y :: ys, rest)
        rw [ihE sf y ys rest hall' hlens.2]
        rfl
    · intro sf acc k₀ v₀ fs rest hall hnd hlen
      have hv₀ : jsonSafeF sf v₀ = true := by
        simp only [List.all_cons, Bool.and_eq_true] at hall
        exact hall.1
      have hknotin : k₀ ∉ acc.map Prod.fst := by
        simp only [List.map_cons, List.nodup_append] at hnd
        intro hmem
        exact hnd.2.2 hmem (List.mem_cons_self _ _)
      cases fs with
      | nil =>
        have hshape : printFields [(k₀, v₀)] ++ rest =
            '"' :: ((k₀.data.map escapeCh).flatten ++ '"' ::
              (':' :: (printChars v₀ ++ '}' :: rest))) := by
          rw [printFields, quoteChars]
          simp
        rw [hshape, parseFields_str, parseStrChars_quote]
        show (parseVal fuel (printChars v₀ ++ '}' :: rest)).bind (fun q =>
            match q.2.dropWhile isWsJson with
            | [] => none
            | e :: r4 =>
              if e = ',' then
                parseFields fuel (insertField acc (String.mk k₀.data) q.1)
                  (r4.dropWhile isWsJson)
              else if e = '}' then some (insertField acc (String.mk k₀.data) q.1, r4)
              else none) = some (acc ++ [(k₀, v₀)], rest)
        have hlv : (printChars v₀).length < fuel := by
          rw [show printFields [(k₀, v₀)] =
            quoteChars k₀ ++ ':' :: printChars v₀ ++ ['}'] from by rw [printFields]] at hlen
          simp only [quoteChars, List.length_append, List.length_cons,
            List.length_singleton] at hlen
          omega
        rw [ihV sf v₀ ('}' :: rest) hv₀ hlv (by
          intro c hc
          simp only [List.head?_cons, Option.some.injEq] at hc
          subst hc
          exact ⟨by decide, by decide⟩)]
        show some (insertField acc (String.mk k₀.data) v₀, rest) = some (acc ++ [(k₀, v₀)], rest)
        rw [show String.mk k₀.data = k₀ from rfl, insertField_fresh acc k₀ v₀ hknotin]
      | cons f fs' =>
        obtain ⟨k₁, v₁⟩ := f
        have hshape : printFields ((k₀, v₀) :: (k₁, v₁) :: fs') ++ rest =
            '"' :: ((k₀.data.map escapeCh).flatten ++ '"' ::
              (':' :: (printChars v₀ ++ ',' :: (printFields ((k₁, v₁) :: fs') ++ rest)))) := by
          rw [printFields, quoteChars]
          simp
        rw [hshape, parseFields_str, parseStrChars_quote]
        show (parseVal fuel (printChars v₀ ++
            ',' :: (printFields ((k₁, v₁) :: fs') ++ rest))).bind (fun q =>
            match q.2.dropWhile isWsJson with
            | [] => none
            | e :: r4 =>
              if e = ',' then
                parseFields fuel (insertField acc (String.mk k₀.data) q.1)
                  (r4.dropWhile isWsJson)
              else if e = '}' then some (insertField acc (String.mk k₀.data) q.1, r4)
              else none) = some (acc ++ (k₀, v₀) :: (k₁, v₁) :: fs', rest)
        have hlens : (printChars v₀).length < fuel ∧
            (printFields ((k₁, v₁) :: fs')).length < fuel := by
          rw [show printFields ((k₀, v₀) :: (k₁, v₁) :: fs') =
            quoteChars k₀ ++ ':' :: printChars v₀ ++ ',' :: printFields ((k₁, v₁) :: fs') from by
              rw [printFields]] at hlen
          simp only [quoteChars, List.length_append, List.length_cons] at hlen
          omega
        rw [ihV sf v₀ (',' :: (printFields ((k₁, v₁) :: fs') ++ rest)) hv₀ hlens.1 (by
          intro c hc
          simp only [List.head?_cons, Option.some.injEq] at hc
          subst hc
          exact ⟨by decide, by decide⟩)]
        obtain ⟨t, ht⟩ := printFields_head k₁ v₁ fs'
        show parseFields fuel (insertField acc (String.mk k₀.data) v₀)
            ((printFields ((k₁, v₁) :: fs') ++ rest).dropWhile isWsJson) =
            some (acc ++ (k₀, v₀) :: (k₁, v₁) :: fs', rest)
        rw [show String.mk k₀.data = k₀ from rfl, insertField_fresh acc k₀ v₀ hknotin,
          ht, List.cons_append, List.dropWhile_cons]
        rw [if_neg (by decide : ¬isWsJson '"' = true), ← List.cons_append, ← ht]
        have hall' : (((k₁, v₁) :: fs').all (fun p => jsonSafeF sf p.2)) = true := by
          simp only [List.all_cons, Bool.and_eq_true] at hall ⊢
          exact hall.2
        have hnd' : ((acc ++ [(k₀, v₀)]).map Prod.fst ++
            ((k₁, v₁) :: fs').map Prod.fst).Nodup := by
          simp only [List.map_append, List.map_cons, List.map_nil, List.append_assoc,
            List.cons_append, List.nil_append] at hnd ⊢
          exact hnd
        rw [ihF sf (acc ++ [(k₀, v₀)]) k₁ v₁ fs' rest hall' hnd' hlens.2]
        simp
theorem jsonParse_print {sf : ℕ} {v : JVal} (h : jsonSafeF sf v = true) :
    jsonParse (jsonStringify v) = some v := by
  obtain ⟨hV, -, -⟩ := parse_print ((printChars v).length + 1)
  have hp : parseVal ((printChars v).length + 1) (printChars v ++ []) = some (v, []) :=
    hV sf v [] h (by omega) (by intro c hc; simp at hc)
  rw [List.append_nil] at hp
  rw [jsonParse, show (jsonStringify v).data = printChars v from rfl, hp]
  rfl
theorem jsonParse_fenced (v : JVal) :
    jsonParse ("```json\n" ++ jsonStringify v ++ "\n```") = none := by
  have hdata : ("```json\n" ++ jsonStringify v ++ "\n```").data
      = "```json\n".data ++ printChars v ++ "\n```".data := by
    rw [String.data_append, String.data_append]
    rfl
  rw [jsonParse, hdata]
  rfl

theorem braceMatch_fenced (fs : List (String × JVal)) :
    braceMatch ("```json\n" ++ jsonStringify (.obj fs) ++ "\n```") =
      some (jsonStringify (.obj fs)) := by
  have hpc : printChars (.obj fs) = '{' :: printFields fs := by rw [printChars]
  obtain ⟨Z, hZ⟩ := printFields_close fs
  have hdata : ("```json\n" ++ jsonStringify (.obj fs) ++ "\n```").data
      = "```json\n".data ++ ('{' :: printFields fs) ++ "\n```".data := by
    rw [String.data_append, String.data_append,
      show (jsonStringify (JVal.obj fs)).data = printChars (JVal.obj fs) from rfl, hpc]
  have ho : dropToOpenBrace ("```json\n".data ++ ('{' :: printFields fs) ++ "\n```".data)
      = some ('{' :: (printFields fs ++ "\n```".data)) := by
    rw [List.append_assoc, List.cons_append]
    rfl
  have hrev : ('{' :: (printFields fs ++ "\n```".data)).reverse
      = '`' :: ('`' :: ('`' :: ('\n' :: ('}' :: (Z.reverse ++ ['{']))))) := by
    rw [hZ]
    simp
  have hc : dropToCloseBrace ('`' :: ('`' :: ('`' :: ('\n' :: ('}' :: (Z.reverse ++ ['{']))))))
      = some ('}' :: (Z.reverse ++ ['{'])) := rfl
  have hu : ('}' :: (Z.reverse ++ ['{'])).reverse = '{' :: (Z ++ ['}']) := by
    simp
  rw [braceMatch, hdata, ho]
  show (dropToCloseBrace ('{' :: (printFields fs ++ "\n```".data)).reverse).bind
      (fun u => pure (String.mk u.reverse)) = some (jsonStringify (.obj fs))
  rw [hrev, hc]
  show some (String.mk ('}' :: (Z.reverse ++ ['{'])).reverse) = some (jsonStringify (.obj fs))
  rw [hu, ← hZ, jsonStringify, hpc]

theorem parseJsonResponse_bare {sf : ℕ} {v : JVal} (h : jsonSafeF sf v = true) :
    parseJsonResponse (jsonStringify v) = some v := by
  rw [parseJsonResponse, jsonParse_print h]

theorem parseJsonResponse_fenced {sf : ℕ} {fs : List (String × JVal)}
    (h : jsonSafeF sf (JVal.obj fs) = true) :
    parseJsonResponse ("```json\n" ++ jsonStringify (.obj fs) ++ "\n```") = some (.obj fs) := by
  rw [parseJsonResponse, jsonParse_fenced, braceMatch_fenced]
  show jsonParse (jsonStringify (JVal.obj fs)) = some (JVal.obj fs)
  exact jsonParse_print h
/-- C4: the `gemini.ts` response parser round-trips. For every JSON-safe
object value `v` (no `undefined` or non-finite fields, structurally
serializable), parsing the serialization returns exactly `v`, and parsing
the same serialization wrapped in a markdown code fence also returns `v`:
the direct parse fails on the fence, and the parser then extracts the
widest brace-delimited substring, which is exactly the serialization. -/
theorem claim4_round_trip (v : JVal) (sf : ℕ) (hobj : ∃ fs, v = JVal.obj fs)
    (hsafe : jsonSafeF sf v = true) :
    parseJsonResponse (jsonStringify v) = some v ∧
    parseJsonResponse ("```json\n" ++ jsonStringify v ++ "\n```") = some v := by
  obtain ⟨fs, rfl⟩ := hobj
  exact ⟨parseJsonResponse_bare hsafe, parseJsonResponse_fenced hsafe⟩

/-- Witness for C4 at the concrete object `c4Obj` (a nested object with a
string, a fractional number and a mixed array including an escaped quote):
both hypotheses hold by computation, and the round trip follows. -/
theorem claim4_witness :
    (∃ fs, c4Obj = JVal.obj fs) ∧ jsonSafeF 10 c4Obj = true ∧
      (parseJsonResponse (jsonStringify c4Obj) = some c4Obj ∧
        parseJsonResponse ("```json\n" ++ jsonStringify c4Obj ++ "\n```") = some c4Obj) :=
  ⟨⟨_, rfl⟩, by decide, claim4_round_trip c4Obj 10 ⟨_, rfl⟩ (by decide)⟩
